import Mathlib

/-!
Verification development for the `pautaplenario` aggregation service
(`app.py`).  The Python source is shallowly embedded: JSON-like values
become the inductive type `Val`, the global TTL cache becomes an
insertion-ordered association list, and each data-service function is
modelled as a pure state-passing function whose network fetch is an
explicit `Except` argument (the HTTP/HTML acquisition itself is not
embeddable; the boundary is drawn after the response has been parsed
into structured rows/records, exactly the data the Python code consumes).
-/

namespace Pauta

mutual
/-- JSON-like dynamic values, the shape of the upstream API records that
`app.py` manipulates (`None`, booleans, numbers, strings, lists, dicts). -/
inductive Val where
  | none : Val
  | bool (b : Bool) : Val
  | num (n : Int) : Val
  | str (s : String) : Val
  | list (xs : ValList) : Val
  | dict (fields : ValDict) : Val
deriving DecidableEq

/-- A Python list of values. -/
inductive ValList where
  | nil : ValList
  | cons (hd : Val) (tl : ValList) : ValList
deriving DecidableEq

/-- A Python dict, as an insertion-ordered association list. -/
inductive ValDict where
  | nil : ValDict
  | cons (k : String) (v : Val) (tl : ValDict) : ValDict
deriving DecidableEq
end

/-- Length of a `ValList`. -/
def ValList.length : ValList → Nat
  | .nil => 0
  | .cons _ tl => tl.length + 1

/-- Number of entries of a `ValDict`. -/
def ValDict.size : ValDict → Nat
  | .nil => 0
  | .cons _ _ tl => tl.size + 1

/-- Python truthiness for `Val` (`None`, `0`, `""`, `[]`, `{}` are falsy). -/
def Val.truthy : Val → Bool
  | .none => false
  | .bool b => b
  | .num n => n != 0
  | .str s => !s.isEmpty
  | .list xs => xs.length != 0
  | .dict fs => fs.size != 0

/-- `d.get(k)` on a Python dict: the stored value, or `None` when absent. -/
def dictGet (fs : ValDict) (k : String) : Val :=
  match fs with
  | .nil => Val.none
  | .cons k' v rest => if k' = k then v else dictGet rest k

/-- `d.get(k, default)` on a Python dict. -/
def dictGetD (fs : ValDict) (k : String) (default : Val) : Val :=
  match fs with
  | .nil => default
  | .cons k' v rest => if k' = k then v else dictGetD rest k default

/-- Python `a or b` on values. -/
def pyOr (a b : Val) : Val := if a.truthy then a else b

/-- `_get(d, *path, default=...)` from `app.py`: walk `path` through nested
dicts; return `default` as soon as the cursor is `None` or a non-dict, and
also when the final value is `None`. -/
def pyGet (d : Val) (path : List String) (default : Val) : Val :=
  match path with
  | [] => match d with
          | .none => default
          | v => v
  | p :: rest =>
      match d with
      | .none => default
      | .dict fs => pyGet (dictGet fs p) rest default
      | _ => default

/-- `_principal_from_item` from `app.py`: resolve the principal proposition
id and summary of one raw agenda-entry record, collapsing the procedural
wrappers (siglaTipo `PPP`/`PEP`, or codTipo `192`/`442`) onto the related
proposition when one is present. -/
def principal_from_item (item_raw : Val) : Val × Val :=
  let prop := pyOr (pyGet item_raw ["proposicao_"] (.dict .nil)) (.dict .nil)
  let relacionada := pyOr (pyGet item_raw ["proposicaoRelacionada_"] (.dict .nil)) (.dict .nil)
  let sigla_tipo := pyGet prop ["siglaTipo"] (.str "")
  let cod_tipo := pyGet prop ["codTipo"] .none
  let is_relacionada :=
    (sigla_tipo = Val.str "PPP" ∨ sigla_tipo = Val.str "PEP") ∨
    (cod_tipo = Val.num 192 ∨ cod_tipo = Val.num 442)
  if is_relacionada ∧ relacionada.truthy then
    (pyGet relacionada ["id"] (.str ""), pyGet relacionada ["ementa"] (.str ""))
  else
    (pyGet prop ["id"] (.str ""), pyGet prop ["ementa"] (.str ""))

/-!
## TTL cache

`_CACHE` is a Python dict mapping keys to `(value, timestamp)` pairs.  A
Python dict preserves insertion order (updates keep the old position, new
keys append, `next(iter(d))` is the earliest-inserted key), so the cache is
embedded as an insertion-ordered association list of
`(key, value, timestamp)` entries with pairwise-distinct keys by
construction.  Timestamps are integers (seconds).
-/

/-- `_TTL_SECONDS` from `app.py`. -/
def TTL_SECONDS : Int := 300

/-- The cache store: insertion-ordered entries `(key, value, stored-at)`. -/
abbrev Cache (K V : Type) : Type := List (K × V × Int)

variable {K V : Type} [DecidableEq K]

/-- Keys of the cache in insertion order. -/
def cacheKeys (c : Cache K V) : List K := c.map (·.1)

/-- `_CACHE.get(key)`: the stored `(value, timestamp)` pair, if any. -/
def cacheFind (c : Cache K V) (k : K) : Option (V × Int) :=
  match c with
  | [] => Option.none
  | (k', v, t) :: rest => if k' = k then some (v, t) else cacheFind rest k

/-- `_CACHE.pop(key, None)`: remove the entry with key `k`, if present. -/
def cacheErase (c : Cache K V) (k : K) : Cache K V :=
  match c with
  | [] => []
  | (k', v, t) :: rest => if k' = k then rest else (k', v, t) :: cacheErase rest k

/-- `_CACHE[key] = (val, ts)`: update in place when the key exists,
otherwise append at the end (Python dict insertion-order semantics). -/
def cacheInsert (c : Cache K V) (k : K) (v : V) (ts : Int) : Cache K V :=
  match c with
  | [] => [(k, v, ts)]
  | (k', v', t') :: rest =>
      if k' = k then (k, v, ts) :: rest else (k', v', t') :: cacheInsert rest k v ts

/-- `_cache_get` from `app.py`: absent keys give `None`; entries older than
the TTL are removed and give `None`; otherwise the stored value is returned.
The (possibly pruned) store is returned alongside the result. -/
def cache_get (c : Cache K V) (k : K) (now : Int) : Option V × Cache K V :=
  match cacheFind c k with
  | Option.none => (Option.none, c)
  | some (val, ts) =>
      if now - ts > TTL_SECONDS then (Option.none, cacheErase c k)
      else (some val, c)

/-- `_cache_set` from `app.py`: when the store currently holds more than 200
entries, the earliest-inserted entry is popped first; then the value is
stored under `k` with the current timestamp. -/
def cache_set (c : Cache K V) (k : K) (v : V) (now : Int) : Cache K V :=
  let c1 := if c.length > 200 then c.tail else c
  cacheInsert c1 k v now

/-- `N` successive `_cache_set` calls starting from store `c`, all with the
same payload `v` and timestamp `t` (the claims only constrain the keys). -/
def cacheSetAll (c : Cache K V) (ks : List K) (v : V) (t : Int) : Cache K V :=
  ks.foldl (fun acc k => cache_set acc k v t) c

/-! ### Cache lemmas -/

@[simp] lemma cacheKeys_nil : cacheKeys ([] : Cache K V) = [] := rfl

@[simp] lemma cacheKeys_cons (k : K) (v : V) (t : Int) (c : Cache K V) :
    cacheKeys ((k, v, t) :: c) = k :: cacheKeys c := rfl

lemma cacheKeys_tail (c : Cache K V) : cacheKeys c.tail = (cacheKeys c).tail := by
  cases c <;> rfl

lemma cacheKeys_length (c : Cache K V) : (cacheKeys c).length = c.length :=
  List.length_map _ _

lemma cacheFind_eq_none_of_not_mem {c : Cache K V} {k : K}
    (h : k ∉ cacheKeys c) : cacheFind c k = Option.none := by
  induction c with
  | nil => rfl
  | cons e rest ih =>
      obtain ⟨k', v, t⟩ := e
      simp only [cacheKeys_cons, List.mem_cons, not_or] at h
      simp only [cacheFind, if_neg (Ne.symm h.1)]
      exact ih h.2

lemma cacheFind_cacheInsert (c : Cache K V) (k : K) (v : V) (t : Int) :
    cacheFind (cacheInsert c k v t) k = some (v, t) := by
  induction c with
  | nil => simp [cacheInsert, cacheFind]
  | cons e rest ih =>
      obtain ⟨k', v', t'⟩ := e
      by_cases hk : k' = k
      · simp [cacheInsert, hk, cacheFind]
      · simp [cacheInsert, hk, cacheFind, ih]

lemma cacheFind_cacheErase_self {c : Cache K V} (k : K)
    (h : (cacheKeys c).Nodup) : cacheFind (cacheErase c k) k = Option.none := by
  induction c with
  | nil => rfl
  | cons e rest ih =>
      obtain ⟨k', v, t⟩ := e
      simp only [cacheKeys_cons, List.nodup_cons] at h
      by_cases hk : k' = k
      · simpa [cacheErase, hk] using
          cacheFind_eq_none_of_not_mem (hk ▸ h.1)
      · simp only [cacheErase, if_neg hk, cacheFind, if_neg hk]
        exact ih h.2

lemma keys_cacheInsert_of_not_mem {c : Cache K V} {k : K} (v : V) (t : Int)
    (h : k ∉ cacheKeys c) :
    cacheKeys (cacheInsert c k v t) = cacheKeys c ++ [k] := by
  induction c with
  | nil => rfl
  | cons e rest ih =>
      obtain ⟨k', v', t'⟩ := e
      simp only [cacheKeys_cons, List.mem_cons, not_or] at h
      simp only [cacheInsert, if_neg (Ne.symm h.1)]
      simp [ih h.2]

lemma keys_cache_set_of_not_mem {c : Cache K V} {k : K} (v : V) (t : Int)
    (h : k ∉ cacheKeys c) :
    cacheKeys (cache_set c k v t) =
      (if 200 < c.length then (cacheKeys c).tail else cacheKeys c) ++ [k] := by
  unfold cache_set
  by_cases hl : 200 < c.length
  · have htail : k ∉ cacheKeys c.tail := by
      rw [cacheKeys_tail]
      exact fun hm => h (List.mem_of_mem_tail hm)
    simp [hl, keys_cacheInsert_of_not_mem v t htail, cacheKeys_tail]
  · simp [hl, keys_cacheInsert_of_not_mem v t h]

lemma cacheFind_cache_set (c : Cache K V) (k : K) (v : V) (t : Int) :
    cacheFind (cache_set c k v t) k = some (v, t) := by
  unfold cache_set
  by_cases hl : 200 < c.length <;> simp [hl, cacheFind_cacheInsert]

lemma keys_cache_set_nodup {c : Cache K V} {k : K} (v : V) (t : Int)
    (hc : (cacheKeys c).Nodup) (h : k ∉ cacheKeys c) :
    (cacheKeys (cache_set c k v t)).Nodup := by
  rw [keys_cache_set_of_not_mem v t h]
  by_cases hl : 200 < c.length
  · simp only [if_pos hl]
    have htl : (cacheKeys c).tail.Nodup := by
      cases hck : cacheKeys c with
      | nil => simp
      | cons a l => rw [hck] at hc; exact (List.nodup_cons.mp hc).2
    refine List.Nodup.append htl (List.nodup_singleton k) ?_
    intro a ha hb
    rw [List.mem_singleton] at hb
    subst hb
    exact h (List.mem_of_mem_tail ha)
  · simp only [if_neg hl]
    refine List.Nodup.append hc (List.nodup_singleton k) ?_
    intro a ha hb
    rw [List.mem_singleton] at hb
    subst hb
    exact h ha

/-- The key invariant behind the capacity bound: folding `_cache_set` over a
key list whose elements are fresh and pairwise distinct keeps exactly the
last `201` keys, in insertion order. -/
lemma cacheSetAll_keys (v : V) (t : Int) :
    ∀ (ks : List K) (c : Cache K V),
      (cacheKeys c ++ ks).Nodup → c.length ≤ 201 →
      cacheKeys (cacheSetAll c ks v t) =
        (cacheKeys c ++ ks).drop ((cacheKeys c).length + ks.length - 201) := by
  intro ks
  induction ks with
  | nil =>
      intro c _ hlen
      simp only [cacheSetAll, List.foldl_nil, List.append_nil, List.length_nil]
      have h0 : (cacheKeys c).length + 0 - 201 = 0 := by
        rw [cacheKeys_length]; omega
      rw [h0, List.drop_zero]
  | cons k ks' ih =>
      intro c hnd hlen
      have hk_fresh : k ∉ cacheKeys c := by
        have hdisj := (List.nodup_append.mp hnd).2.2
        intro hm
        exact hdisj hm (List.mem_cons_self _ _)
      have hstep : cacheSetAll c (k :: ks') v t = cacheSetAll (cache_set c k v t) ks' v t := rfl
      by_cases hl : 200 < c.length
      · -- the store is full (length 201): the earliest entry is evicted
        have hc201 : c.length = 201 := by omega
        have hkeys : cacheKeys (cache_set c k v t) = (cacheKeys c).tail ++ [k] :=
          (keys_cache_set_of_not_mem v t hk_fresh).trans (by rw [if_pos hl])
        obtain ⟨e, c', rfl⟩ : ∃ e c', c = e :: c' := by
          cases c with
          | nil => simp at hc201
          | cons e c' => exact ⟨e, c', rfl⟩
        obtain ⟨k0, v0, t0⟩ := e
        have hkeys' : cacheKeys (cache_set ((k0, v0, t0) :: c') k v t) =
            cacheKeys c' ++ [k] := by simpa using hkeys
        have hc'200 : c'.length = 200 := by
          simp only [List.length_cons] at hc201; omega
        have hlc' : (cacheKeys c').length = 200 := by
          rw [cacheKeys_length]; exact hc'200
        have hlen' : (cache_set ((k0, v0, t0) :: c') k v t).length ≤ 201 := by
          have h3 := cacheKeys_length (cache_set ((k0, v0, t0) :: c') k v t)
          rw [hkeys'] at h3
          simp only [List.length_append, List.length_singleton] at h3
          omega
        have hnd' : (cacheKeys (cache_set ((k0, v0, t0) :: c') k v t) ++ ks').Nodup := by
          rw [hkeys']
          have hass : (cacheKeys c' ++ [k]) ++ ks' = cacheKeys c' ++ (k :: ks') := by
            simp
          rw [hass]
          exact (List.nodup_cons.mp (by simpa using hnd)).2
        rw [hstep, ih _ hnd' hlen', hkeys']
        have e1 : (cacheKeys c' ++ [k]).length + ks'.length - 201 = ks'.length := by
          simp only [List.length_append, List.length_singleton, hlc']; omega
        have e2 : (cacheKeys ((k0, v0, t0) :: c')).length + (k :: ks').length - 201 =
            ks'.length + 1 := by
          simp only [cacheKeys_cons, List.length_cons]; omega
        rw [e1, e2]
        have e3 : cacheKeys c' ++ [k] ++ ks' = cacheKeys c' ++ (k :: ks') := by simp
        have e4 : cacheKeys ((k0, v0, t0) :: c') ++ k :: ks' =
            k0 :: (cacheKeys c' ++ (k :: ks')) := by simp
        rw [e3, e4, List.drop_succ_cons]
      · -- the store still has room: the new key is appended
        have hkeys : cacheKeys (cache_set c k v t) = cacheKeys c ++ [k] :=
          (keys_cache_set_of_not_mem v t hk_fresh).trans (by rw [if_neg hl])
        have hcl : (cacheKeys c).length = c.length := cacheKeys_length c
        have hlen' : (cache_set c k v t).length ≤ 201 := by
          have h3 := cacheKeys_length (cache_set c k v t)
          rw [hkeys] at h3
          simp only [List.length_append, List.length_singleton] at h3
          omega
        have hassoc : (cacheKeys c ++ [k]) ++ ks' = cacheKeys c ++ (k :: ks') := by simp
        have hnd' : (cacheKeys (cache_set c k v t) ++ ks').Nodup := by
          rw [hkeys, hassoc]; exact hnd
        rw [hstep, ih _ hnd' hlen', hkeys, hassoc]
        have h5 : (cacheKeys c ++ [k]).length = (cacheKeys c).length + 1 := by
          rw [List.length_append]; rfl
        have hamount : (cacheKeys c ++ [k]).length + ks'.length - 201 =
            (cacheKeys c).length + (k :: ks').length - 201 := by
          rw [h5, List.length_cons]
          omega
        rw [hamount]

/-- Specialization: starting from an empty store, after setting a list of
pairwise-distinct keys the surviving keys are exactly the last 201, in
order. -/
lemma cacheSetAll_nil_keys (v : V) (t : Int) {ks : List K} (h : ks.Nodup) :
    cacheKeys (cacheSetAll ([] : Cache K V) ks v t) = ks.drop (ks.length - 201) := by
  have := cacheSetAll_keys v t ks [] (by simpa using h) (by simp)
  simpa using this

/-- Starting from an empty store, the size after setting `N` pairwise
distinct keys is `min N 201`. -/
lemma cacheSetAll_nil_length (v : V) (t : Int) {ks : List K} (h : ks.Nodup) :
    (cacheSetAll ([] : Cache K V) ks v t).length = min ks.length 201 := by
  have hk := cacheSetAll_nil_keys v t h
  have : (cacheKeys (cacheSetAll ([] : Cache K V) ks v t)).length =
      (ks.drop (ks.length - 201)).length := by rw [hk]
  rw [cacheKeys_length, List.length_drop] at this
  omega

lemma cacheInsert_cons_eq {k' k : K} {v' : V} {t' : Int} {rest : Cache K V}
    (v : V) (t : Int) (h : k' = k) :
    cacheInsert ((k', v', t') :: rest) k v t = (k, v, t) :: rest := by
  simp [cacheInsert, h]

lemma cacheInsert_cons_ne {k' k : K} {v' : V} {t' : Int} {rest : Cache K V}
    (v : V) (t : Int) (h : ¬ k' = k) :
    cacheInsert ((k', v', t') :: rest) k v t = (k', v', t') :: cacheInsert rest k v t := by
  simp [cacheInsert, h]

lemma mem_keys_cacheInsert {c : Cache K V} {k a : K} {v : V} {t : Int}
    (h : a ∈ cacheKeys (cacheInsert c k v t)) : a ∈ cacheKeys c ∨ a = k := by
  induction c with
  | nil => simpa [cacheInsert] using h
  | cons e rest ih =>
      obtain ⟨k', v', t'⟩ := e
      by_cases hk : k' = k
      · rw [cacheInsert_cons_eq v t hk] at h
        simp only [cacheKeys_cons, List.mem_cons] at h ⊢
        subst hk
        tauto
      · rw [cacheInsert_cons_ne v t hk] at h
        simp only [cacheKeys_cons, List.mem_cons] at h ⊢
        rcases h with h | h
        · exact Or.inl (Or.inl h)
        · rcases ih h with h' | h'
          · exact Or.inl (Or.inr h')
          · exact Or.inr h'

lemma keys_cacheInsert_nodup {c : Cache K V} (k : K) (v : V) (t : Int)
    (h : (cacheKeys c).Nodup) : (cacheKeys (cacheInsert c k v t)).Nodup := by
  induction c with
  | nil => simp [cacheInsert]
  | cons e rest ih =>
      obtain ⟨k', v', t'⟩ := e
      simp only [cacheKeys_cons, List.nodup_cons] at h
      by_cases hk : k' = k
      · rw [cacheInsert_cons_eq v t hk]
        simp only [cacheKeys_cons, List.nodup_cons]
        subst hk
        exact h
      · rw [cacheInsert_cons_ne v t hk]
        simp only [cacheKeys_cons, List.nodup_cons]
        refine ⟨?_, ih h.2⟩
        intro hmem
        rcases mem_keys_cacheInsert hmem with h' | h'
        · exact h.1 h'
        · exact hk h'

lemma keys_cache_set_nodup' {c : Cache K V} (k : K) (v : V) (t : Int)
    (h : (cacheKeys c).Nodup) : (cacheKeys (cache_set c k v t)).Nodup := by
  unfold cache_set
  by_cases hl : 200 < c.length
  · simp only [if_pos hl]
    refine keys_cacheInsert_nodup k v t ?_
    rw [cacheKeys_tail]
    cases hck : cacheKeys c with
    | nil => simp
    | cons a l => rw [hck] at h; exact (List.nodup_cons.mp h).2
  · simp only [if_neg hl]
    exact keys_cacheInsert_nodup k v t h

/-! ### Claims C1 and C2 -/

/-- C1 (as stated, refuted): 201 successive `_cache_set` calls with
pairwise-distinct keys leave the store at size 201, not at most 200 — the
capacity check `len(_CACHE) > 200` runs before the insert, so the store
stabilizes one entry above the nominal maximum. -/
theorem claim_C1_counterexample :
    (List.range 201).Nodup ∧
    (cacheSetAll ([] : Cache Nat Unit) (List.range 201) () 0).length = 201 ∧
    ¬ (cacheSetAll ([] : Cache Nat Unit) (List.range 201) () 0).length ≤ 200 := by
  have h := @cacheSetAll_nil_length Nat Unit _ () 0 (List.range 201)
    (List.nodup_range 201)
  rw [List.length_range] at h
  refine ⟨List.nodup_range 201, ?_, ?_⟩ <;> omega

/-- C1 (amended): for every sequence of `_cache_set` calls with
pairwise-distinct keys, the cache size never exceeds 201 after any insert;
after `N ≥ 201` successive distinct `set` calls the store's size is exactly
201 (= `min N 201` in general), with evicted keys removed in strict
insertion order — the surviving keys are exactly the last 201 keys set. -/
theorem claim_C1 {K V : Type} [DecidableEq K] (ks : List K) (v : V) (t : Int)
    (h : ks.Nodup) :
    (cacheSetAll ([] : Cache K V) ks v t).length = min ks.length 201 ∧
    cacheKeys (cacheSetAll ([] : Cache K V) ks v t) = ks.drop (ks.length - 201) :=
  ⟨cacheSetAll_nil_length v t h, cacheSetAll_nil_keys v t h⟩

/-- Witness for C1 at a concrete key list. -/
theorem claim_C1_witness :
    (cacheSetAll ([] : Cache Nat Unit) [0, 1, 2] () 0).length =
      min ([0, 1, 2] : List Nat).length 201 ∧
    cacheKeys (cacheSetAll ([] : Cache Nat Unit) [0, 1, 2] () 0) =
      ([0, 1, 2] : List Nat).drop (([0, 1, 2] : List Nat).length - 201) :=
  claim_C1 [0, 1, 2] () 0 (by decide)

/-- C2 (confirmed): a value stored by `_cache_set` at time `T` is returned
unchanged by `_cache_get` at any `T'` with `T' − T ≤ TTL` (the store is left
untouched), while at any `T'` with `T' − T > TTL` the read returns `None`
and the expired entry is removed from the store — so absence and expiry are
indistinguishable to the caller. -/
theorem claim_C2 {K V : Type} [DecidableEq K] (c : Cache K V) (k : K) (v : V)
    (T T' : Int) (hnd : (cacheKeys c).Nodup) :
    (T' - T ≤ TTL_SECONDS →
      cache_get (cache_set c k v T) k T' = (some v, cache_set c k v T)) ∧
    (T' - T > TTL_SECONDS →
      (cache_get (cache_set c k v T) k T').1 = Option.none ∧
      cacheFind (cache_get (cache_set c k v T) k T').2 k = Option.none) := by
  have hfind := cacheFind_cache_set c k v T
  constructor
  · intro h
    simp only [cache_get, hfind]
    rw [if_neg (by omega)]
  · intro h
    simp only [cache_get, hfind]
    rw [if_pos h]
    exact ⟨rfl, cacheFind_cacheErase_self k (keys_cache_set_nodup' k v T hnd)⟩

/-- Witness for C2: a fresh read within the TTL returns the value, a read
301 seconds later sees nothing. -/
theorem claim_C2_witness :
    cache_get (cache_set ([] : Cache Nat Unit) 0 () 0) 0 100 =
      (some (), cache_set ([] : Cache Nat Unit) 0 () 0) ∧
    (cache_get (cache_set ([] : Cache Nat Unit) 0 () 0) 0 400).1 = Option.none :=
  ⟨(claim_C2 [] 0 () 0 100 (by simp [cacheKeys])).1 (by decide),
   ((claim_C2 [] 0 () 0 400 (by simp [cacheKeys])).2 (by decide)).1⟩

/-!
## String utilities

Python string primitives used by the extractors.  `strip()` is embedded as
`String.trim`; `\w`, `\d` and `\s` character classes are embedded through
`Char.isAlphanum`/`_`, `Char.isDigit` and `Char.isWhitespace`.
-/

/-- Python `s.strip()` (also the `normtxt` helper of the opinions scraper):
drop leading and trailing whitespace.  Implemented structurally on the
character list so that it evaluates by kernel reduction. -/
def pyStrip (s : String) : String :=
  String.mk (((s.toList.dropWhile Char.isWhitespace).reverse.dropWhile
    Char.isWhitespace).reverse)

/-- Python `a or b` on strings (`a` wins when non-empty). -/
def pyOrS (a b : String) : String := if a = "" then b else a

/-- Whether `sub` is a prefix of `l`. -/
def listHasPre (sub l : List Char) : Bool :=
  match sub, l with
  | [], _ => true
  | _ :: _, [] => false
  | a :: as, b :: bs => a == b && listHasPre as bs

/-- Whether `sub` occurs contiguously inside `l`. -/
def listHasInfix (sub l : List Char) : Bool :=
  match l with
  | [] => sub.isEmpty
  | c :: tl => listHasPre sub (c :: tl) || listHasInfix sub tl

/-- Python `sub in s` on strings. -/
def pyInStr (sub s : String) : Bool := listHasInfix sub.toList s.toList

/-- A regex word character (`\w`): letter, digit or underscore. -/
def isWordChar (c : Char) : Bool := c.isAlphanum || c = '_'

/-- The numeric value of a digit run (`int(m.group(2))`). -/
def natOfDigits (ds : List Char) : Nat :=
  ds.foldl (fun n c => n * 10 + (c.toNat - '0'.toNat)) 0

/-!
## The opinions pattern `\b(PRL[PE])\s*(\d+)\b`

`re.search` scans left to right for the first position where the pattern
matches.  Because `\s*` and `\d+` consume disjoint character classes and a
digit is a word character, backtracking never helps: the search succeeds at
a position iff the boundary holds there, the literal `PRL` followed by `P`
or `E` is present, then (after a maximal whitespace run) a maximal non-empty
digit run ends at a word boundary.
-/

/-- `\b` holding between the previous character (if any) and a following
word character. -/
def boundaryOk (prev : Option Char) : Bool :=
  match prev with
  | Option.none => true
  | some c => !isWordChar c

/-- Try to match `(PRL[PE])\s*(\d+)\b` at the head of `l`; on success return
the tag (`"PRLP"` or `"PRLE"`) and the number. -/
def matchPRLAt (l : List Char) : Option (String × Nat) :=
  match l with
  | 'P' :: 'R' :: 'L' :: x :: rest =>
      if x = 'P' ∨ x = 'E' then
        let rest1 := rest.dropWhile Char.isWhitespace
        let ds := rest1.takeWhile Char.isDigit
        let after := rest1.dropWhile Char.isDigit
        if ds ≠ [] ∧ (match after with
                      | [] => true
                      | c :: _ => !isWordChar c) = true then
          some (String.mk ['P', 'R', 'L', x], natOfDigits ds)
        else Option.none
      else Option.none
  | _ => Option.none

/-- `re.search(r"\b(PRL[PE])\s*(\d+)\b", s)`: scan every position, keeping
track of the previous character for the leading word boundary. -/
def searchPRL (prev : Option Char) (l : List Char) : Option (String × Nat) :=
  match l with
  | [] => Option.none
  | c :: cs =>
      if boundaryOk prev then
        match matchPRLAt (c :: cs) with
        | some r => some r
        | Option.none => searchPRL (some c) cs
      else searchPRL (some c) cs

/-- Declarative reading of the source pattern (used to state the amended
C7): some position of `l` carries a word-boundary-delimited `PRLP`/`PRLE`
tag followed by optional whitespace and a non-empty digit run. -/
def ExistsPRLMatch (l : List Char) : Prop :=
  ∃ (pre ws ds post : List Char) (x : Char),
    l = pre ++ 'P' :: 'R' :: 'L' :: x :: (ws ++ ds ++ post) ∧
    (x = 'P' ∨ x = 'E') ∧
    (∀ c ∈ ws, c.isWhitespace = true) ∧
    ds ≠ [] ∧
    (∀ c ∈ ds, c.isDigit = true) ∧
    (∀ c, pre.getLast? = some c → isWordChar c = false) ∧
    (∀ c, post.head? = some c → isWordChar c = false)

/-- The claim's literal reading of the spec pattern: category letters
`PRLP`/`PRLE` *immediately* followed by a digit, anywhere in the text. -/
def hasImmediateTag (l : List Char) : Bool :=
  match l with
  | 'P' :: 'R' :: 'L' :: x :: d :: rest =>
      ((x == 'P' || x == 'E') && d.isDigit) ||
      hasImmediateTag ('R' :: 'L' :: x :: d :: rest)
  | _ :: cs => hasImmediateTag cs
  | [] => false

/-!
## Domain entities (the model classes of `app.py`)

HTML-scraped entities carry plain strings; API-derived entities carry `Val`
payloads.  `_parse_datetime_flex` and the `datetime.strptime` date
renormalization depend on the host datetime library and are passed in as
opaque formatting functions.
-/

/-- `e.get(k)` where `e` is a raw API record (absent on non-dicts). -/
def evGet (e : Val) (k : String) : Val :=
  match e with
  | .dict fs => dictGet fs k
  | _ => Val.none

/-- `e.get(k, default)` where `e` is a raw API record. -/
def evGetD (e : Val) (k : String) (d : Val) : Val :=
  match e with
  | .dict fs => dictGetD fs k d
  | _ => d

/-- Conversion from a Lean list to a Python value list. -/
def ValList.ofList : List Val → ValList
  | [] => .nil
  | x :: xs => .cons x (ofList xs)

/-- The `Evento` model class. -/
structure Evento where
  id_evento : Val
  data_hora_inicio : Val
  situacao : Val
  descricao_tipo : Val
  descricao : Val
deriving DecidableEq

/-- The `DestaqueEmenda` model class. -/
structure DestaqueEmenda where
  numero : String
  autoria : String
  descricao : String
  tipo_destaque : String
  situacao : String
deriving DecidableEq

/-- The `ParecerSubstitutivoVoto` model class (its constructor applies
`descricao or "Descrição não disponível"`). -/
structure ParecerSubstitutivoVoto where
  tipo_proposicao : String
  data_apresentacao : String
  autor : String
  descricao : String
  link_inteiro_teor : String
deriving DecidableEq

/-- The `Procedimento` model class. -/
structure Procedimento where
  numero : String
  autoria : String
  descricao : String
  situacao : String
  data : String
deriving DecidableEq

/-- One merged agenda entry as assembled by `obter_pauta_por_evento`.  The
`descricao_situacao` and `autores` fields come from the two nested lookups,
supplied as opaque functions of the principal id. -/
structure AgendaItem where
  ordem : Val
  regime : Val
  titulo : Val
  id_proposicao : Val
  ementa : Val
  relator_id : Val
  relator_nome : Val
  relator_sigla_partido : Val
  relator_url_foto : Val
  descricao_situacao : Val
  destaques_emendas : List Val
  procedimentos : List Val
  autores : Val
  pareceres_substitutivos_votos : List Val
deriving DecidableEq

/-!
## Table extractors

A scraped HTML table is embedded as its cell text: for the header-free
profiles (highlights, procedures) a table is a list of rows, each a list of
`td` texts; for the opinions profile a table is a pair of its `th` texts and
its `tr` rows.  `find_all("tr")[1:]` drops the first row of each table.
-/

/-- One data row of the highlights scraper (`obter_destaques_emendas`):
rows shorter than 5 columns are skipped, only rows whose 5th column reads
exactly `"Em tramitação"` are kept, and an empty description becomes the
fixed sentinel. -/
def processDestaqueRow (cols : List String) : Option DestaqueEmenda :=
  if cols.length < 5 then Option.none
  else
    let situacao := pyStrip (cols.getD 4 "")
    if situacao ≠ "Em tramitação" then Option.none
    else some {
      numero := pyStrip (cols.getD 0 ""),
      autoria := pyStrip (cols.getD 1 ""),
      descricao := pyOrS (pyStrip (pyOrS (cols.getD 2 "") "")) "Descrição não disponível",
      tipo_destaque := pyStrip (cols.getD 3 ""),
      situacao := situacao }

/-- All highlights of a document, in table order then row order. -/
def destaquesFromTables (tables : List (List (List String))) : List DestaqueEmenda :=
  tables.foldl (fun acc tabela => acc ++ (tabela.drop 1).filterMap processDestaqueRow) []

/-- One data row of the procedures scraper
(`obter_procedimentos_regimentais`): status is at index 3, the date column
is renormalized by the host datetime library (`fmtDate`), and the
description is taken verbatim — with no sentinel. -/
def processProcRow (fmtDate : String → String) (cols : List String) : Option Procedimento :=
  if cols.length < 5 then Option.none
  else
    let situ := pyStrip (cols.getD 3 "")
    if situ ≠ "Em tramitação" then Option.none
    else some {
      numero := pyStrip (cols.getD 0 ""),
      autoria := pyStrip (cols.getD 1 ""),
      descricao := pyStrip (cols.getD 2 ""),
      situacao := situ,
      data := fmtDate (pyStrip (cols.getD 4 "")) }

/-- All procedures of a document, in table order then row order. -/
def procsFromTables (fmtDate : String → String)
    (tables : List (List (List String))) : List Procedimento :=
  tables.foldl (fun acc tabela => acc ++ (tabela.drop 1).filterMap (processProcRow fmtDate)) []

/-- One opinion candidate row of `obter_pareceres_substitutivos_votos`. -/
structure Candidato where
  tipo : String
  numero : Nat
  tipo_proposicao : String
  data_apresentacao : String
  autor : String
  descricao : String
  link_inteiro_teor : String
deriving DecidableEq

/-- `idx_contains` from the opinions scraper: first header index whose text
contains `substr`, or `-1`. -/
def idx_contains (ths : List String) (substr : String) : Int :=
  match ths with
  | [] => -1
  | h :: rest =>
      if pyInStr substr h then 0
      else
        let r := idx_contains rest substr
        if r < 0 then -1 else r + 1

/-- Header resolution of the opinions scraper: keyword matching with a
positional `0,1,2,3,4` fallback for keyword-free tables of at least five
columns; tables that still miss a column are skipped (`Option.none`). -/
def resolveIdxs (ths : List String) : Option (Int × Int × Int × Int × Int) :=
  if ths = [] then Option.none
  else
    let idx_psv := idx_contains ths "pareceres"
    let idx_tipo := idx_contains ths "tipo de propos"
    let idx_data := idx_contains ths "data de apres"
    let idx_aut := idx_contains ths "autor"
    let idx_desc := idx_contains ths "descri"
    let m := min idx_psv (min idx_tipo (min idx_data (min idx_aut idx_desc)))
    if m < 0 ∧ 5 ≤ ths.length then some (0, 1, 2, 3, 4)
    else if m < 0 then Option.none
    else some (idx_psv, idx_tipo, idx_data, idx_aut, idx_desc)

/-- One data row of the opinions scraper, with the column indices already
resolved: short rows are skipped, the designated column must contain the
`\b(PRL[PE])\s*(\d+)\b` pattern, and the description is cleaned of the
`"Inteiro teor"` boilerplate with an empty result replaced by the
sentinel. -/
def processarLinha (id_proposicao : String) (idxs : Int × Int × Int × Int × Int)
    (tds : List String) : Option Candidato :=
  let (idx_psv, idx_tipo, idx_data, idx_aut, idx_desc) := idxs
  let mx := max idx_desc (max idx_aut (max idx_data (max idx_tipo idx_psv)))
  if (tds.length : Int) < mx + 1 then Option.none
  else
    let txt_psv := pyStrip (tds.getD idx_psv.toNat "")
    match searchPRL Option.none txt_psv.toList with
    | Option.none => Option.none
    | some (tipo_tag, numero) =>
        if ¬ (tipo_tag = "PRLP" ∨ tipo_tag = "PRLE") then Option.none
        else some {
          tipo := tipo_tag,
          numero := numero,
          tipo_proposicao := tipo_tag ++ " " ++ toString numero,
          data_apresentacao := pyOrS (pyStrip (tds.getD idx_data.toNat "")) "N/D",
          autor := pyOrS (pyStrip (tds.getD idx_aut.toNat "")) "N/D",
          descricao := pyOrS
            (pyStrip ((pyOrS (pyStrip (tds.getD idx_desc.toNat ""))
              "Descrição não disponível").replace "Inteiro teor" ""))
            "Descrição não disponível",
          link_inteiro_teor :=
            "https://www.camara.leg.br/proposicoesWeb/prop_pareceres_substitutivos_votos?idProposicao="
              ++ id_proposicao }

/-- All `PRLP`/`PRLE` candidate rows of a document.  A table is a pair of
its `th` texts (normalized and lowercased before header matching, as in the
source) and its `tr` rows. -/
def candidatosFromTables (id_proposicao : String)
    (tables : List (List String × List (List String))) : List Candidato :=
  tables.foldl (fun acc t =>
    let ths := t.1.map (fun s => (pyStrip s).toLower)
    match resolveIdxs ths with
    | Option.none => acc
    | some idxs => acc ++ (t.2.drop 1).filterMap (processarLinha id_proposicao idxs)) []

/-- Python `max(xs, key=f)` on a non-empty list `x :: xs`: the first
element attaining the maximum. -/
def pyMax (f : Candidato → Nat) (x : Candidato) (xs : List Candidato) : Candidato :=
  xs.foldl (fun acc y => if f y > f acc then y else acc) x

/-- `if lst: selecionados.append(max(lst, key=lambda x: x["numero"]))`:
nothing for an empty category, the first highest-numbered candidate
otherwise. -/
def bestOf (l : List Candidato) : List Candidato :=
  match l with
  | [] => []
  | x :: xs => [pyMax (fun c => c.numero) x xs]

/-- The selection step of `obter_pareceres_substitutivos_votos`: the
highest-numbered `PRLP` (when any), then the highest-numbered `PRLE`
(when any). -/
def selecionar (candidatos : List Candidato) : List Candidato :=
  bestOf (candidatos.filter (fun c => c.tipo = "PRLP")) ++
  bestOf (candidatos.filter (fun c => c.tipo = "PRLE"))

/-- The `ParecerSubstitutivoVoto(...)` constructor call on a selected
candidate (the constructor itself applies the description sentinel). -/
def mkParecer (sel : Candidato) : ParecerSubstitutivoVoto :=
  { tipo_proposicao := sel.tipo_proposicao,
    data_apresentacao := sel.data_apresentacao,
    autor := sel.autor,
    descricao := pyOrS sel.descricao "Descrição não disponível",
    link_inteiro_teor := sel.link_inteiro_teor }

/-!
## Aggregation service

Each `obter_*` function is embedded as a state-passing step: it receives
the outcome of its try-block's data acquisition (`Except String ...`, the
`except Exception` branch being the `.error` case), the relevant slice of
the global cache, and the current time, and returns its result envelope
together with the updated cache.
-/

/-- Result envelope of `obter_eventos_dia`. -/
structure EventosRes where
  tem_sessao : Bool
  eventos : List Evento
  erro : Option String
deriving DecidableEq

/-- Result envelope of `obter_detalhes_proposicao`. -/
structure DetRes where
  descricao_situacao : Val
deriving DecidableEq

/-- Result envelope of `obter_destaques_emendas`. -/
structure DestaquesRes where
  tem_destaques_emendas : Bool
  destaques_emendas : List DestaqueEmenda
  erro : Option String
deriving DecidableEq

/-- Result envelope of `obter_pareceres_substitutivos_votos`. -/
structure PareceresRes where
  tem_pareceres : Bool
  pareceres_substitutivos_votos : List ParecerSubstitutivoVoto
  erro : Option String
deriving DecidableEq

/-- Result envelope of `obter_procedimentos_regimentais`. -/
structure ProcsRes where
  tem_procedimentos : Bool
  procedimentos : List Procedimento
  erro : Option String
deriving DecidableEq

/-- Result envelope of `obter_pauta_por_evento`. -/
structure PautaRes where
  tem_pauta : Bool
  itens : List AgendaItem
  erro : Option String
deriving DecidableEq

/-- `obter_eventos_dia`: cache-checked fetch of the day's events filtered
to deliberative sessions (`"Sessão Deliberativa"` substring on a string
`descricaoTipo`).  Both the success and the failure envelope are cached. -/
def obter_eventos_dia (data_str : String) (fmtDT : Val → Val)
    (fetch : Except String (List Val)) (c : Cache String EventosRes) (now : Int) :
    EventosRes × Cache String EventosRes :=
  let ck := "eventos:" ++ data_str
  match cache_get c ck now with
  | (some v, c') => (v, c')
  | (Option.none, c') =>
      match fetch with
      | .ok dados =>
          let eventos_delib := (dados.filter (fun e =>
            match evGet e "descricaoTipo" with
            | Val.str s => pyInStr "Sessão Deliberativa" s
            | _ => false)).map (fun e =>
              { id_evento := evGetD e "id" (.str ""),
                data_hora_inicio := fmtDT (evGetD e "dataHoraInicio" (.str "")),
                situacao := evGetD e "situacao" (.str "Não Informada"),
                descricao_tipo := evGetD e "descricaoTipo" (.str ""),
                descricao := evGetD e "descricao" (.str "") })
          let res : EventosRes :=
            { tem_sessao := 0 < eventos_delib.length,
              eventos := eventos_delib,
              erro := if eventos_delib.isEmpty
                then some ("Nenhuma sessão deliberativa em " ++ data_str ++ ".")
                else Option.none }
          (res, cache_set c' ck res now)
      | .error e =>
          let res : EventosRes :=
            { tem_sessao := false, eventos := [], erro := some ("Erro na API: " ++ e) }
          (res, cache_set c' ck res now)

/-- `obter_detalhes_proposicao`: cache-checked fetch of a proposition's
status description.  Only the success envelope is cached — the `except`
branch returns its error payload without storing it. -/
def obter_detalhes_proposicao (id_proposicao : String)
    (fetch : Except String Val) (c : Cache String DetRes) (now : Int) :
    DetRes × Cache String DetRes :=
  let ck := "prop:" ++ id_proposicao
  match cache_get c ck now with
  | (some v, c') => (v, c')
  | (Option.none, c') =>
      match fetch with
      | .ok d =>
          let payload : DetRes :=
            { descricao_situacao :=
                pyGet d ["statusProposicao", "descricaoSituacao"] (.str "Não Informada") }
          (payload, cache_set c' ck payload now)
      | .error e =>
          ({ descricao_situacao := Val.str ("Erro: " ++ e) }, c')

/-- `obter_autores_proposicao`: cache-checked fetch of up to two author
names.  The result is kept as a raw `Val` dict because the failure envelope
spells its flag key `tem_ais_autores` (a typo preserved from the source).
Both envelopes are cached. -/
def obter_autores_proposicao (id_proposicao : String)
    (fetch : Except String (List Val)) (c : Cache String Val) (now : Int) :
    Val × Cache String Val :=
  let ck := "autores:" ++ id_proposicao
  match cache_get c ck now with
  | (some v, c') => (v, c')
  | (Option.none, c') =>
      match fetch with
      | .ok dados =>
          let autores := (dados.take 2).map (fun a =>
            Val.dict (.cons "nome"
              (pyOr (evGet a "nome")
                (pyOr (evGet (pyOr (evGet a "autor") (.dict .nil)) "nome")
                  (.str "Desconhecido"))) .nil))
          let result := Val.dict (.cons "autores" (Val.list (ValList.ofList autores))
            (.cons "tem_mais_autores" (Val.bool (2 < dados.length)) .nil))
          (result, cache_set c' ck result now)
      | .error _ =>
          let result := Val.dict (.cons "autores" (Val.list .nil)
            (.cons "tem_ais_autores" (Val.bool false) .nil))
          (result, cache_set c' ck result now)

/-- `obter_destaques_emendas`: cache-checked scrape of the highlights
tables.  Both envelopes are cached. -/
def obter_destaques_emendas (id_proposicao : String)
    (fetch : Except String (List (List (List String))))
    (c : Cache String DestaquesRes) (now : Int) :
    DestaquesRes × Cache String DestaquesRes :=
  let ck := "destaques:" ++ id_proposicao
  match cache_get c ck now with
  | (some v, c') => (v, c')
  | (Option.none, c') =>
      match fetch with
      | .ok tables =>
          let destaques := destaquesFromTables tables
          let res : DestaquesRes :=
            { tem_destaques_emendas := 0 < destaques.length,
              destaques_emendas := destaques,
              erro := if destaques.isEmpty
                then some "Nenhum destaque/emenda em tramitação" else Option.none }
          (res, cache_set c' ck res now)
      | .error e =>
          let res : DestaquesRes :=
            { tem_destaques_emendas := false, destaques_emendas := [],
              erro := some ("Erro no scraping: " ++ e) }
          (res, cache_set c' ck res now)

/-- `obter_pareceres_substitutivos_votos`: cache-checked scrape of the
opinions tables followed by the per-category selection.  All three
envelopes (no candidates / selection / failure) are cached. -/
def obter_pareceres_substitutivos_votos (id_proposicao : String)
    (fetch : Except String (List (List String × List (List String))))
    (c : Cache String PareceresRes) (now : Int) :
    PareceresRes × Cache String PareceresRes :=
  let ck := "pareceres:" ++ id_proposicao
  match cache_get c ck now with
  | (some v, c') => (v, c')
  | (Option.none, c') =>
      match fetch with
      | .ok tables =>
          let candidatos := candidatosFromTables id_proposicao tables
          if candidatos.isEmpty then
            let res : PareceresRes :=
              { tem_pareceres := false, pareceres_substitutivos_votos := [],
                erro := some "Nenhum PRLP/PRLE encontrado" }
            (res, cache_set c' ck res now)
          else
            let items := (selecionar candidatos).map mkParecer
            let res : PareceresRes :=
              { tem_pareceres := 0 < items.length,
                pareceres_substitutivos_votos := items, erro := Option.none }
            (res, cache_set c' ck res now)
      | .error e =>
          let res : PareceresRes :=
            { tem_pareceres := false, pareceres_substitutivos_votos := [],
              erro := some ("Erro no scraping: " ++ e) }
          (res, cache_set c' ck res now)

/-- `obter_procedimentos_regimentais`: cache-checked scrape of the
procedural-requirements tables.  Both envelopes are cached. -/
def obter_procedimentos_regimentais (id_proposicao : String)
    (fmtDate : String → String)
    (fetch : Except String (List (List (List String))))
    (c : Cache String ProcsRes) (now : Int) :
    ProcsRes × Cache String ProcsRes :=
  let ck := "proced:" ++ id_proposicao
  match cache_get c ck now with
  | (some v, c') => (v, c')
  | (Option.none, c') =>
      match fetch with
      | .ok tables =>
          let procs := procsFromTables fmtDate tables
          let res : ProcsRes :=
            { tem_procedimentos := 0 < procs.length,
              procedimentos := procs,
              erro := if procs.isEmpty
                then some "Nenhum requerimento procedimental em tramitação"
                else Option.none }
          (res, cache_set c' ck res now)
      | .error e =>
          let res : ProcsRes :=
            { tem_procedimentos := false, procedimentos := [],
              erro := some ("Erro no scraping: " ++ e) }
          (res, cache_set c' ck res now)

/-- One merged agenda item, assembled from a raw agenda record and the
resolved principal id/summary; `det` and `aut` supply the nested
status/author lookups. -/
def mkAgendaItem (det aut : Val → Val) (item : Val)
    (principal_id ementa_ok : Val) : AgendaItem :=
  { ordem := pyGet item ["ordem"] (.str "N/D"),
    regime := pyGet item ["regime"] (.str ""),
    titulo := pyGet item ["titulo"] (.str ""),
    id_proposicao := principal_id,
    ementa := ementa_ok,
    relator_id := pyGet item ["relator", "id"] (.str ""),
    relator_nome := pyGet item ["relator", "nome"] (.str ""),
    relator_sigla_partido := pyGet item ["relator", "siglaPartido"] (.str ""),
    relator_url_foto := pyGet item ["relator", "urlFoto"] (.str ""),
    descricao_situacao := det principal_id,
    destaques_emendas := [],
    procedimentos := [],
    autores := aut principal_id,
    pareceres_substitutivos_votos := [] }

/-- The merge loop of `obter_pauta_por_evento`: entries with a falsy
principal id are dropped, repeated principal ids are skipped
(first occurrence wins, tracked in `seen`). -/
def buildItens (det aut : Val → Val) : List Val → List Val → List AgendaItem
  | [], _ => []
  | item :: rest, seen =>
      let pe := principal_from_item item
      if pe.1.truthy = false ∨ pe.1 ∈ seen then
        buildItens det aut rest seen
      else
        mkAgendaItem det aut item pe.1 pe.2 :: buildItens det aut rest (pe.1 :: seen)

/-- `obter_pauta_por_evento`: cache-checked fetch of one session's agenda,
merged through `buildItens`.  Both envelopes are cached. -/
def obter_pauta_por_evento (evento_id : String) (det aut : Val → Val)
    (fetch : Except String (List Val)) (c : Cache String PautaRes) (now : Int) :
    PautaRes × Cache String PautaRes :=
  let ck := "pauta:" ++ evento_id
  match cache_get c ck now with
  | (some v, c') => (v, c')
  | (Option.none, c') =>
      match fetch with
      | .ok dados_pauta =>
          let itens := buildItens det aut dados_pauta []
          let res : PautaRes :=
            { tem_pauta := 0 < itens.length,
              itens := itens,
              erro := if itens.isEmpty
                then some ("Sem itens para evento " ++ evento_id) else Option.none }
          (res, cache_set c' ck res now)
      | .error e =>
          let res : PautaRes :=
            { tem_pauta := false, itens := [], erro := some ("Erro na API: " ++ e) }
          (res, cache_set c' ck res now)

/-!
## Claims C10, C3, C4: nested access and principal resolution
-/

/-- Successful resolution of a nested-dict path to a non-`None` value —
the spec's reading of "the whole path resolves". -/
inductive ResolvesTo : Val → List String → Val → Prop
  | last (v : Val) (h : v ≠ Val.none) : ResolvesTo v [] v
  | step (fs : ValDict) (p : String) (rest : List String) (v : Val)
      (h : ResolvesTo (dictGet fs p) rest v) : ResolvesTo (.dict fs) (p :: rest) v

/-- C10 (confirmed): `_get` is total by construction, returns the value a
path resolves to whenever the whole path resolves to a non-`None` value
through dictionaries, and returns the supplied default in every other case
(a link absent, `None`, or not a dictionary). -/
theorem claim_C10 (d : Val) (path : List String) (default : Val) :
    (∀ v, ResolvesTo d path v → pyGet d path default = v) ∧
    ((¬ ∃ v, ResolvesTo d path v) → pyGet d path default = default) := by
  induction path generalizing d with
  | nil =>
      constructor
      · intro v h
        cases h with
        | last _ hne => cases d <;> first | rfl | exact absurd rfl hne
      · intro hno
        cases d with
        | none => rfl
        | bool b => exact absurd ⟨_, ResolvesTo.last _ (by simp)⟩ hno
        | num n => exact absurd ⟨_, ResolvesTo.last _ (by simp)⟩ hno
        | str s => exact absurd ⟨_, ResolvesTo.last _ (by simp)⟩ hno
        | list xs => exact absurd ⟨_, ResolvesTo.last _ (by simp)⟩ hno
        | dict fs => exact absurd ⟨_, ResolvesTo.last _ (by simp)⟩ hno
  | cons p rest ih =>
      constructor
      · intro v h
        cases h with
        | step fs _ _ _ h' => exact (ih (dictGet fs p)).1 v h'
      · intro hno
        cases d with
        | dict fs =>
            refine (ih (dictGet fs p)).2 ?_
            rintro ⟨v, hv⟩
            exact hno ⟨v, ResolvesTo.step fs p rest v hv⟩
        | none => rfl
        | bool b => rfl
        | num n => rfl
        | str s => rfl
        | list xs => rfl

/-- Witness for C10: a two-link path that resolves, and a `None` root that
falls back to the default. -/
theorem claim_C10_witness :
    pyGet (Val.dict (.cons "a" (Val.dict (.cons "b" (Val.num 5) .nil)) .nil))
      ["a", "b"] (.str "") = Val.num 5 ∧
    pyGet Val.none ["a"] (.str "") = Val.str "" := by
  constructor
  · exact (claim_C10 _ _ _).1 _
      (ResolvesTo.step _ _ _ _ (ResolvesTo.step _ _ _ _ (ResolvesTo.last _ (by decide))))
  · refine (claim_C10 _ _ _).2 ?_
    rintro ⟨v, hv⟩
    cases hv

/-- Collapsing the source's `_get(_get(item, k1, default={}) or {}, k2, d)`
idiom into a single two-link `_get`: the `or {}` normalization does not
change the result. -/
lemma pyGet_two_step (item : Val) (k1 k2 : String) (d : Val) :
    pyGet (pyOr (pyGet item [k1] (.dict .nil)) (.dict .nil)) [k2] d =
      pyGet item [k1, k2] d := by
  cases item with
  | dict fs =>
      show pyGet (pyOr (pyGet (dictGet fs k1) [] (.dict .nil)) (.dict .nil)) [k2] d =
        pyGet (dictGet fs k1) [k2] d
      cases h : dictGet fs k1 with
      | none => rfl
      | bool b => cases b <;> rfl
      | num n =>
          by_cases hn : n = 0
          · subst hn; rfl
          · simp only [pyGet, pyOr, Val.truthy]
            rw [if_pos (by simpa using hn)]
      | str s =>
          by_cases hs : s = ""
          · subst hs; rfl
          · simp only [pyGet, pyOr, Val.truthy]
            have hs' : s.isEmpty = false := by
              rcases Bool.eq_false_or_eq_true s.isEmpty with h | h
              · exact absurd ((String.isEmpty_iff s).mp h) hs
              · exact h
            rw [if_pos (by simp [hs'])]
      | list xs => cases xs <;> rfl
      | dict gs => cases gs <;> rfl
  | none => rfl
  | bool b => rfl
  | num n => rfl
  | str s => rfl
  | list xs => rfl

/-- The embedded proposition sub-record, after the source's `or {}`
normalization. -/
def propOf (item : Val) : Val :=
  pyOr (pyGet item ["proposicao_"] (.dict .nil)) (.dict .nil)

/-- The related proposition sub-record, after the source's `or {}`
normalization. -/
def relOf (item : Val) : Val :=
  pyOr (pyGet item ["proposicaoRelacionada_"] (.dict .nil)) (.dict .nil)

/-- The embedded proposition's type marks the entry as a procedural
wrapper: abbreviation `PPP`/`PEP`, or numeric type code `192`/`442`. -/
def isProcMarker (item : Val) : Prop :=
  (pyGet item ["proposicao_", "siglaTipo"] (.str "") = Val.str "PPP" ∨
   pyGet item ["proposicao_", "siglaTipo"] (.str "") = Val.str "PEP") ∨
  (pyGet item ["proposicao_", "codTipo"] Val.none = Val.num 192 ∨
   pyGet item ["proposicao_", "codTipo"] Val.none = Val.num 442)

instance (item : Val) : Decidable (isProcMarker item) := by
  unfold isProcMarker; infer_instance

/-- Master equation for the resolver, with all nested accesses collapsed to
two-link paths on the raw record. -/
lemma principal_from_item_eq (item : Val) :
    principal_from_item item =
      if isProcMarker item ∧ (relOf item).truthy then
        (pyGet item ["proposicaoRelacionada_", "id"] (.str ""),
         pyGet item ["proposicaoRelacionada_", "ementa"] (.str ""))
      else
        (pyGet item ["proposicao_", "id"] (.str ""),
         pyGet item ["proposicao_", "ementa"] (.str "")) := by
  unfold principal_from_item isProcMarker relOf
  simp only [pyGet_two_step]

/-- The sub-record the resolver draws its result from: the related record
when the procedural branch is taken, the embedded proposition otherwise. -/
def chosenOf (item : Val) : Val :=
  if isProcMarker item ∧ (relOf item).truthy then relOf item else propOf item

/-- C3 (confirmed): a procedural-wrapper entry (abbreviation `PPP`/`PEP` or
type code `192`/`442`) with a related sub-record present resolves to the
related record's id/summary; an ordinary entry resolves to its own
id/summary; a procedural-wrapper entry without a related sub-record
resolves to its own id/summary. -/
theorem claim_C3 (item : Val) :
    (isProcMarker item → (relOf item).truthy = true →
      principal_from_item item =
        (pyGet item ["proposicaoRelacionada_", "id"] (.str ""),
         pyGet item ["proposicaoRelacionada_", "ementa"] (.str ""))) ∧
    (¬ isProcMarker item →
      principal_from_item item =
        (pyGet item ["proposicao_", "id"] (.str ""),
         pyGet item ["proposicao_", "ementa"] (.str ""))) ∧
    (isProcMarker item → (relOf item).truthy = false →
      principal_from_item item =
        (pyGet item ["proposicao_", "id"] (.str ""),
         pyGet item ["proposicao_", "ementa"] (.str ""))) := by
  refine ⟨?_, ?_, ?_⟩
  · intro hm hr
    rw [principal_from_item_eq, if_pos ⟨hm, hr⟩]
  · intro hm
    rw [principal_from_item_eq, if_neg (fun hc => hm hc.1)]
  · intro hm hr
    rw [principal_from_item_eq, if_neg (fun hc => by rw [hr] at hc; exact absurd hc.2 (by simp))]

/-- Witness for C3: a `PPP` wrapper with a related record resolves to the
related record; an ordinary entry resolves to itself. -/
theorem claim_C3_witness :
    principal_from_item (Val.dict (.cons "proposicao_"
        (.dict (.cons "siglaTipo" (.str "PPP")
          (.cons "id" (.num 1) (.cons "ementa" (.str "w") .nil))))
      (.cons "proposicaoRelacionada_"
        (.dict (.cons "id" (.num 2) (.cons "ementa" (.str "r") .nil))) .nil))) =
      (pyGet (Val.dict (.cons "proposicao_"
        (.dict (.cons "siglaTipo" (.str "PPP")
          (.cons "id" (.num 1) (.cons "ementa" (.str "w") .nil))))
      (.cons "proposicaoRelacionada_"
        (.dict (.cons "id" (.num 2) (.cons "ementa" (.str "r") .nil))) .nil)))
        ["proposicaoRelacionada_", "id"] (.str ""),
       pyGet (Val.dict (.cons "proposicao_"
        (.dict (.cons "siglaTipo" (.str "PPP")
          (.cons "id" (.num 1) (.cons "ementa" (.str "w") .nil))))
      (.cons "proposicaoRelacionada_"
        (.dict (.cons "id" (.num 2) (.cons "ementa" (.str "r") .nil))) .nil)))
        ["proposicaoRelacionada_", "ementa"] (.str "")) :=
  (claim_C3 _).1 (by decide) (by decide)

/-- C4 (as stated, refuted): the record below carries a proposition id
(`proposicao_.id = 5`), yet the resolver returns an empty principal id —
the `PPP` marker routes resolution to a related sub-record that is present
(truthy) but carries no id of its own. -/
theorem claim_C4_counterexample :
    pyGet (Val.dict (.cons "proposicao_"
        (.dict (.cons "siglaTipo" (.str "PPP") (.cons "id" (.num 5) .nil)))
      (.cons "proposicaoRelacionada_"
        (.dict (.cons "ementa" (.str "x") .nil)) .nil)))
      ["proposicao_", "id"] Val.none = Val.num 5 ∧
    (principal_from_item (Val.dict (.cons "proposicao_"
        (.dict (.cons "siglaTipo" (.str "PPP") (.cons "id" (.num 5) .nil)))
      (.cons "proposicaoRelacionada_"
        (.dict (.cons "ementa" (.str "x") .nil)) .nil)))).1 = Val.str "" := by
  constructor <;> decide

/-- C4 (amended): the resolver's output id is exactly the id field of the
sub-record it chose (the related record when the procedural branch is
taken, the embedded proposition otherwise); it is therefore empty only when
that chosen sub-record carries no id — and whenever the chosen sub-record
carries a truthy id, the output id is non-empty. -/
theorem claim_C4 (item : Val) :
    (principal_from_item item).1 = pyGet (chosenOf item) ["id"] (.str "") ∧
    ((pyGet (chosenOf item) ["id"] (.str "")).truthy = true →
      (principal_from_item item).1 ≠ Val.str "") := by
  have h1 : (principal_from_item item).1 = pyGet (chosenOf item) ["id"] (.str "") := by
    rw [principal_from_item_eq]
    unfold chosenOf
    by_cases hc : isProcMarker item ∧ (relOf item).truthy
    · rw [if_pos hc, if_pos hc]
      show pyGet item ["proposicaoRelacionada_", "id"] (.str "") = _
      rw [← pyGet_two_step]
      rfl
    · rw [if_neg hc, if_neg hc]
      show pyGet item ["proposicao_", "id"] (.str "") = _
      rw [← pyGet_two_step]
      rfl
  refine ⟨h1, ?_⟩
  intro ht heq
  rw [← h1, heq] at ht
  exact absurd ht (by decide)

/-- Witness for C4 at a record with an ordinary embedded proposition. -/
theorem claim_C4_witness :
    (principal_from_item (Val.dict (.cons "proposicao_"
        (.dict (.cons "id" (.num 9) .nil)) .nil))).1 =
      pyGet (chosenOf (Val.dict (.cons "proposicao_"
        (.dict (.cons "id" (.num 9) .nil)) .nil))) ["id"] (.str "") ∧
    (principal_from_item (Val.dict (.cons "proposicao_"
        (.dict (.cons "id" (.num 9) .nil)) .nil))).1 ≠ Val.str "" :=
  ⟨(claim_C4 _).1, (claim_C4 _).2 (by decide)⟩

/-! ### Claim C5: the merge loop of `obter_pauta_por_evento` -/

lemma buildItens_mem (det aut : Val → Val) :
    ∀ (items seen : List Val) (x : AgendaItem), x ∈ buildItens det aut items seen →
      x.id_proposicao.truthy = true ∧ x.id_proposicao ∉ seen := by
  intro items
  induction items with
  | nil => intro seen x hx; simp [buildItens] at hx
  | cons item rest ih =>
      intro seen x hx
      simp only [buildItens] at hx
      by_cases hskip : (principal_from_item item).1.truthy = false ∨
          (principal_from_item item).1 ∈ seen
      · rw [if_pos hskip] at hx
        exact ih seen x hx
      · rw [if_neg hskip] at hx
        push_neg at hskip
        rcases List.mem_cons.mp hx with hx | hx
        · subst hx
          exact ⟨Bool.not_eq_false _ |>.mp hskip.1, hskip.2⟩
        · have h := ih _ x hx
          refine ⟨h.1, fun hm => h.2 (List.mem_cons_of_mem _ hm)⟩

lemma buildItens_nodup (det aut : Val → Val) :
    ∀ (items seen : List Val),
      ((buildItens det aut items seen).map (·.id_proposicao)).Nodup := by
  intro items
  induction items with
  | nil => intro seen; simp [buildItens]
  | cons item rest ih =>
      intro seen
      simp only [buildItens]
      by_cases hskip : (principal_from_item item).1.truthy = false ∨
          (principal_from_item item).1 ∈ seen
      · rw [if_pos hskip]; exact ih seen
      · rw [if_neg hskip]
        simp only [List.map_cons, List.nodup_cons]
        refine ⟨?_, ih _⟩
        intro hmem
        rcases List.mem_map.mp hmem with ⟨y, hy, hid⟩
        have h := buildItens_mem det aut rest _ y hy
        rw [hid] at h
        exact h.2 (List.mem_cons_self _ _)

lemma buildItens_first (det aut : Val → Val) :
    ∀ (items seen : List Val) (x : AgendaItem), x ∈ buildItens det aut items seen →
      ∃ raw, items.find? (fun r => (principal_from_item r).1 == x.id_proposicao) = some raw ∧
        x = mkAgendaItem det aut raw (principal_from_item raw).1 (principal_from_item raw).2 := by
  intro items
  induction items with
  | nil => intro seen x hx; simp [buildItens] at hx
  | cons item rest ih =>
      intro seen x hx
      have hmem := buildItens_mem det aut (item :: rest) seen x hx
      simp only [buildItens] at hx
      by_cases hskip : (principal_from_item item).1.truthy = false ∨
          (principal_from_item item).1 ∈ seen
      · rw [if_pos hskip] at hx
        obtain ⟨raw, hfind, hmk⟩ := ih seen x hx
        refine ⟨raw, ?_, hmk⟩
        -- the skipped head cannot carry x's id: x's id is truthy and unseen
        have hner : ¬ ((principal_from_item item).1 == x.id_proposicao) = true := by
          simp only [beq_iff_eq]
          intro he
          rcases hskip with hf | hs
          · rw [he, hmem.1] at hf
            cases hf
          · rw [he] at hs
            exact hmem.2 hs
        have hstep : List.find? (fun r => (principal_from_item r).1 == x.id_proposicao)
            (item :: rest) =
            List.find? (fun r => (principal_from_item r).1 == x.id_proposicao) rest :=
          List.find?_cons_of_neg _ hner
        rw [hstep, hfind]
      · rw [if_neg hskip] at hx
        rcases List.mem_cons.mp hx with hx | hx
        · refine ⟨item, ?_, by rw [hx]⟩
          rw [hx]
          exact List.find?_cons_of_pos _ (by simp [mkAgendaItem])
        · obtain ⟨raw, hfind, hmk⟩ := ih _ x hx
          have hne : (principal_from_item item).1 ≠ x.id_proposicao := by
            intro he
            have h := buildItens_mem det aut rest _ x hx
            rw [← he] at h
            exact h.2 (List.mem_cons_self _ _)
          refine ⟨raw, ?_, hmk⟩
          have hner : ¬ ((principal_from_item item).1 == x.id_proposicao) = true := by
            simp only [beq_iff_eq]
            exact hne
          have hstep : List.find? (fun r => (principal_from_item r).1 == x.id_proposicao)
              (item :: rest) =
              List.find? (fun r => (principal_from_item r).1 == x.id_proposicao) rest :=
            List.find?_cons_of_neg _ hner
          rw [hstep, hfind]

/-- C5 (confirmed): in the agenda assembled by `obter_pauta_por_evento`
from one raw agenda list, every item has a truthy (non-empty) principal
proposition id, no two items share a principal id, and each item derives
from the *first* raw entry carrying its principal id; entries with a falsy
principal id are dropped.  On a cache miss the function's success envelope
contains exactly this item list. -/
theorem claim_C5 (det aut : Val → Val) (dados : List Val) :
    (∀ x ∈ buildItens det aut dados [], x.id_proposicao.truthy = true) ∧
    ((buildItens det aut dados []).map (·.id_proposicao)).Nodup ∧
    (∀ x ∈ buildItens det aut dados [],
      ∃ raw, dados.find? (fun r => (principal_from_item r).1 == x.id_proposicao) = some raw ∧
        x = mkAgendaItem det aut raw (principal_from_item raw).1 (principal_from_item raw).2) ∧
    (∀ (evento_id : String) (c c₁ : Cache String PautaRes) (now : Int),
      cache_get c ("pauta:" ++ evento_id) now = (Option.none, c₁) →
      (obter_pauta_por_evento evento_id det aut (.ok dados) c now).1.itens =
        buildItens det aut dados []) := by
  refine ⟨fun x hx => (buildItens_mem det aut dados [] x hx).1,
          buildItens_nodup det aut dados [],
          buildItens_first det aut dados [],
          ?_⟩
  intro evento_id c c₁ now h
  simp only [obter_pauta_por_evento, h]

/-- Witness for C5: two raw entries sharing principal id 7 plus an
id-less entry collapse to a single item derived from the first entry. -/
theorem claim_C5_witness :
    ((buildItens (fun _ => Val.none) (fun _ => Val.none)
        [Val.dict (.cons "proposicao_"
            (.dict (.cons "id" (.num 7) (.cons "ementa" (.str "a") .nil))) .nil),
         Val.dict (.cons "proposicao_"
            (.dict (.cons "id" (.num 7) (.cons "ementa" (.str "b") .nil))) .nil),
         Val.dict .nil] []).map (·.id_proposicao)).Nodup ∧
    (buildItens (fun _ => Val.none) (fun _ => Val.none)
        [Val.dict (.cons "proposicao_"
            (.dict (.cons "id" (.num 7) (.cons "ementa" (.str "a") .nil))) .nil),
         Val.dict (.cons "proposicao_"
            (.dict (.cons "id" (.num 7) (.cons "ementa" (.str "b") .nil))) .nil),
         Val.dict .nil] []).map (fun x => (x.id_proposicao, x.ementa)) =
      [(Val.num 7, Val.str "a")] ∧
    (obter_pauta_por_evento "77" (fun _ => Val.none) (fun _ => Val.none)
        (.ok [Val.dict .nil]) [] 0).1.itens =
      buildItens (fun _ => Val.none) (fun _ => Val.none) [Val.dict .nil] [] :=
  ⟨(claim_C5 (fun _ => Val.none) (fun _ => Val.none) _).2.1,
   by decide,
   (claim_C5 (fun _ => Val.none) (fun _ => Val.none) _).2.2.2 "77" [] [] 0 rfl⟩

/-! ### Claim C6: opinion selection -/

lemma pyMax_mem (f : Candidato → Nat) :
    ∀ (xs : List Candidato) (x : Candidato), pyMax f x xs = x ∨ pyMax f x xs ∈ xs := by
  intro xs
  induction xs with
  | nil => intro x; exact Or.inl rfl
  | cons y ys ih =>
      intro x
      have hstep : pyMax f x (y :: ys) = pyMax f (if f y > f x then y else x) ys := rfl
      rw [hstep]
      rcases ih (if f y > f x then y else x) with h | h
      · rw [h]
        split
        · exact Or.inr (List.mem_cons_self _ _)
        · exact Or.inl rfl
      · exact Or.inr (List.mem_cons_of_mem _ h)

lemma pyMax_ge (f : Candidato → Nat) :
    ∀ (xs : List Candidato) (x y : Candidato), y ∈ x :: xs → f y ≤ f (pyMax f x xs) := by
  intro xs
  induction xs with
  | nil =>
      intro x y hy
      rcases List.mem_cons.mp hy with h | h
      · subst h; exact Nat.le_refl _
      · cases h
  | cons z zs ih =>
      intro x y hy
      have hstep : pyMax f x (z :: zs) = pyMax f (if f z > f x then z else x) zs := rfl
      rw [hstep]
      have hxle : f x ≤ f (if f z > f x then z else x) := by
        split
        · omega
        · exact Nat.le_refl _
      have hzle : f z ≤ f (if f z > f x then z else x) := by
        split
        · exact Nat.le_refl _
        · omega
      have hacc := ih (if f z > f x then z else x) _ (List.mem_cons_self _ _)
      rcases List.mem_cons.mp hy with h | h
      · subst h; exact Nat.le_trans hxle hacc
      · rcases List.mem_cons.mp h with h' | h'
        · subst h'; exact Nat.le_trans hzle hacc
        · exact ih _ y (List.mem_cons_of_mem _ h')

lemma bestOf_length (l : List Candidato) : (bestOf l).length ≤ 1 := by
  cases l <;> simp [bestOf]

lemma bestOf_subset {l : List Candidato} {x : Candidato} (h : x ∈ bestOf l) : x ∈ l := by
  cases l with
  | nil => cases h
  | cons a as =>
      simp only [bestOf, List.mem_singleton] at h
      subst h
      rcases pyMax_mem (fun c => c.numero) as a with h | h
      · rw [h]; exact List.mem_cons_self _ _
      · exact List.mem_cons_of_mem _ h

lemma bestOf_ge {l : List Candidato} {x : Candidato} (h : x ∈ bestOf l) :
    ∀ y ∈ l, y.numero ≤ x.numero := by
  cases l with
  | nil => cases h
  | cons a as =>
      simp only [bestOf, List.mem_singleton] at h
      subst h
      exact fun y hy => pyMax_ge (fun c => c.numero) as a y hy

lemma bestOf_eq_nil_iff (l : List Candidato) : bestOf l = [] ↔ l = [] := by
  cases l <;> simp [bestOf]

/-- A minimal opinion candidate for the worked examples. -/
def mkCand (tipo : String) (numero : Nat) : Candidato :=
  { tipo := tipo, numero := numero,
    tipo_proposicao := tipo ++ " " ++ toString numero,
    data_apresentacao := "N/D", autor := "N/D",
    descricao := "d", link_inteiro_teor := "l" }

/-- C6 (confirmed): the selection step returns a `PRLP` part followed by a
`PRLE` part, each with at most one entry, each entry a candidate of its
category whose sequence number dominates every candidate of that category,
and each part empty exactly when its category has no candidates.  On the
worked examples: `{PRLP 3, PRLP 7, PRLE 2} ↦ [PRLP 7, PRLE 2]` and
`{PRLP 1, PRLP 4} ↦ [PRLP 4]`. -/
theorem claim_C6 :
    (∀ cs : List Candidato, ∃ a b,
      selecionar cs = a ++ b ∧
      a.length ≤ 1 ∧ b.length ≤ 1 ∧
      (∀ x ∈ a, x ∈ cs ∧ x.tipo = "PRLP" ∧
        ∀ y ∈ cs, y.tipo = "PRLP" → y.numero ≤ x.numero) ∧
      (∀ x ∈ b, x ∈ cs ∧ x.tipo = "PRLE" ∧
        ∀ y ∈ cs, y.tipo = "PRLE" → y.numero ≤ x.numero) ∧
      (a = [] ↔ ∀ y ∈ cs, ¬ y.tipo = "PRLP") ∧
      (b = [] ↔ ∀ y ∈ cs, ¬ y.tipo = "PRLE")) ∧
    selecionar [mkCand "PRLP" 3, mkCand "PRLP" 7, mkCand "PRLE" 2] =
      [mkCand "PRLP" 7, mkCand "PRLE" 2] ∧
    selecionar [mkCand "PRLP" 1, mkCand "PRLP" 4] = [mkCand "PRLP" 4] := by
  refine ⟨?_, by decide, by decide⟩
  intro cs
  refine ⟨bestOf (cs.filter (fun c => c.tipo = "PRLP")),
          bestOf (cs.filter (fun c => c.tipo = "PRLE")),
          rfl, bestOf_length _, bestOf_length _, ?_, ?_, ?_, ?_⟩
  · intro x hx
    have hmem := bestOf_subset hx
    rw [List.mem_filter] at hmem
    refine ⟨hmem.1, by simpa using hmem.2, ?_⟩
    intro y hy hty
    exact bestOf_ge hx y (List.mem_filter.mpr ⟨hy, by simpa using hty⟩)
  · intro x hx
    have hmem := bestOf_subset hx
    rw [List.mem_filter] at hmem
    refine ⟨hmem.1, by simpa using hmem.2, ?_⟩
    intro y hy hty
    exact bestOf_ge hx y (List.mem_filter.mpr ⟨hy, by simpa using hty⟩)
  · rw [bestOf_eq_nil_iff, List.filter_eq_nil_iff]
    simp
  · rw [bestOf_eq_nil_iff, List.filter_eq_nil_iff]
    simp

/-- Witness for C6: the first worked example, extracted from the claim. -/
theorem claim_C6_witness :
    selecionar [mkCand "PRLP" 3, mkCand "PRLP" 7, mkCand "PRLE" 2] =
      [mkCand "PRLP" 7, mkCand "PRLE" 2] :=
  claim_C6.2.1

/-! ### Claim C8: description sentinels -/

lemma pyOrS_ne_empty (a : String) {b : String} (hb : b ≠ "") : pyOrS a b ≠ "" := by
  unfold pyOrS
  split
  · exact hb
  · assumption

lemma pyOrS_empty_left (b : String) : pyOrS "" b = b := by simp [pyOrS]

/-- C8 (as stated, refuted): the procedures extractor emits a record whose
description is the empty string — `obter_procedimentos_regimentais` copies
`cols[2].text.strip()` into the record without applying any sentinel. -/
theorem claim_C8_counterexample :
    processProcRow (fun s => s) ["1", "A", "", "Em tramitação", "01/01/2024"] =
      some { numero := "1", autoria := "A", descricao := "",
             situacao := "Em tramitação", data := "01/01/2024" } ∧
    ("" : String) ≠ "Descrição não disponível" := by
  constructor <;> decide

/-- C8 (amended): the highlights and opinions extractors never emit an
empty description — a description that is empty after normalization becomes
the fixed sentinel `"Descrição não disponível"`; the procedures extractor,
however, copies the row's (possibly empty) description verbatim. -/
theorem claim_C8 :
    (∀ (cols : List String) (d : DestaqueEmenda), processDestaqueRow cols = some d →
      d.descricao ≠ "" ∧
      (pyStrip (pyOrS (cols.getD 2 "") "") = "" →
        d.descricao = "Descrição não disponível")) ∧
    (∀ (id_proposicao : String) (idxs : Int × Int × Int × Int × Int)
        (tds : List String) (cand : Candidato),
      processarLinha id_proposicao idxs tds = some cand → cand.descricao ≠ "") ∧
    (∀ sel : Candidato, (mkParecer sel).descricao ≠ "" ∧
      (sel.descricao = "" → (mkParecer sel).descricao = "Descrição não disponível")) := by
  refine ⟨?_, ?_, ?_⟩
  · intro cols d h
    simp only [processDestaqueRow] at h
    split_ifs at h
    injection h with h
    subst h
    refine ⟨pyOrS_ne_empty _ (by decide), ?_⟩
    intro hempty
    show pyOrS (pyStrip (pyOrS (cols.getD 2 "") "")) "Descrição não disponível" = _
    rw [hempty, pyOrS_empty_left]
  · intro id_proposicao idxs tds cand h
    obtain ⟨i1, i2, i3, i4, i5⟩ := idxs
    simp only [processarLinha] at h
    split at h
    · cases h
    · split at h
      · cases h
      · split at h
        · cases h
        · injection h with h
          subst h
          exact pyOrS_ne_empty _ (by decide)
  · intro sel
    refine ⟨pyOrS_ne_empty _ (by decide), ?_⟩
    intro hempty
    show pyOrS sel.descricao "Descrição não disponível" = _
    rw [hempty, pyOrS_empty_left]

/-- Witness for C8: a highlight row with an empty description column is
emitted with the sentinel description. -/
theorem claim_C8_witness :
    processDestaqueRow ["7", "X", "", "T", "Em tramitação"] =
      some { numero := "7", autoria := "X", descricao := "Descrição não disponível",
             tipo_destaque := "T", situacao := "Em tramitação" } ∧
    ({ numero := "7", autoria := "X", descricao := "Descrição não disponível",
       tipo_destaque := "T", situacao := "Em tramitação" } : DestaqueEmenda).descricao =
      "Descrição não disponível" ∧
    (mkParecer (mkCand "PRLP" 1)).descricao ≠ "" :=
  ⟨by decide,
   (claim_C8.1 ["7", "X", "", "T", "Em tramitação"] _ (by decide)).2 (by decide),
   (claim_C8.2.2 (mkCand "PRLP" 1)).1⟩

/-! ### Claim C9: caching of failure envelopes -/

lemma cache_get_cache_set (c : Cache K V) (k : K) (v : V) (T T' : Int)
    (h : T' - T ≤ TTL_SECONDS) :
    cache_get (cache_set c k v T) k T' = (some v, cache_set c k v T) := by
  have hfind := cacheFind_cache_set c k v T
  simp only [cache_get, hfind]
  rw [if_neg (by omega)]

/-- The failure envelope of `obter_eventos_dia`. -/
def eventosErro (e : String) : EventosRes :=
  { tem_sessao := false, eventos := [], erro := some ("Erro na API: " ++ e) }

/-- The failure envelope of `obter_detalhes_proposicao`. -/
def detalhesErro (e : String) : DetRes :=
  { descricao_situacao := Val.str ("Erro: " ++ e) }

/-- The failure envelope of `obter_autores_proposicao` (note the
`tem_ais_autores` key, a typo preserved from the source). -/
def autoresErro : Val :=
  Val.dict (.cons "autores" (Val.list .nil)
    (.cons "tem_ais_autores" (Val.bool false) .nil))

/-- The failure envelope of `obter_destaques_emendas`. -/
def destaquesErro (e : String) : DestaquesRes :=
  { tem_destaques_emendas := false, destaques_emendas := [],
    erro := some ("Erro no scraping: " ++ e) }

/-- The failure envelope of `obter_pareceres_substitutivos_votos`. -/
def pareceresErro (e : String) : PareceresRes :=
  { tem_pareceres := false, pareceres_substitutivos_votos := [],
    erro := some ("Erro no scraping: " ++ e) }

/-- The failure envelope of `obter_procedimentos_regimentais`. -/
def procsErro (e : String) : ProcsRes :=
  { tem_procedimentos := false, procedimentos := [],
    erro := some ("Erro no scraping: " ++ e) }

/-- The failure envelope of `obter_pauta_por_evento`. -/
def pautaErro (e : String) : PautaRes :=
  { tem_pauta := false, itens := [], erro := some ("Erro na API: " ++ e) }

/-- C9 (as stated, refuted): `obter_detalhes_proposicao` does *not* cache
its failure envelope — after a failed call on an empty cache the store is
still empty, and a retry inside the TTL window consults the upstream
source again (here returning a fresh success instead of a cached error). -/
theorem claim_C9_counterexample :
    obter_detalhes_proposicao "1" (.error "boom") [] 0 = (detalhesErro "boom", []) ∧
    (obter_detalhes_proposicao "1" (.ok (Val.dict .nil)) [] 100).1 =
      { descricao_situacao := Val.str "Não Informada" } := by
  constructor <;> rfl

/-- C9 (amended): every cache-checked lookup *except* proposition details
(sessions-of-day, authors, highlights, opinions, procedures,
agenda-of-event) stores its failure envelope in the cache under the same
key and TTL as a success would, so a subsequent call within the TTL window
returns the cached failure without consulting the fetch; proposition
details (`obter_detalhes_proposicao`) returns its failure envelope without
caching it, leaving the store as the cache check left it. -/
theorem claim_C9 :
    (∀ (d : String) (fmtDT : Val → Val) (e : String)
        (c c₁ : Cache String EventosRes) (now now' : Int)
        (fetch' : Except String (List Val)),
      cache_get c ("eventos:" ++ d) now = (Option.none, c₁) →
      now' - now ≤ TTL_SECONDS →
      obter_eventos_dia d fmtDT (.error e) c now =
        (eventosErro e, cache_set c₁ ("eventos:" ++ d) (eventosErro e) now) ∧
      obter_eventos_dia d fmtDT fetch'
          (cache_set c₁ ("eventos:" ++ d) (eventosErro e) now) now' =
        (eventosErro e, cache_set c₁ ("eventos:" ++ d) (eventosErro e) now)) ∧
    (∀ (p e : String) (c c₁ : Cache String Val) (now now' : Int)
        (fetch' : Except String (List Val)),
      cache_get c ("autores:" ++ p) now = (Option.none, c₁) →
      now' - now ≤ TTL_SECONDS →
      obter_autores_proposicao p (.error e) c now =
        (autoresErro, cache_set c₁ ("autores:" ++ p) autoresErro now) ∧
      obter_autores_proposicao p fetch'
          (cache_set c₁ ("autores:" ++ p) autoresErro now) now' =
        (autoresErro, cache_set c₁ ("autores:" ++ p) autoresErro now)) ∧
    (∀ (p e : String) (c c₁ : Cache String DestaquesRes) (now now' : Int)
        (fetch' : Except String (List (List (List String)))),
      cache_get c ("destaques:" ++ p) now = (Option.none, c₁) →
      now' - now ≤ TTL_SECONDS →
      obter_destaques_emendas p (.error e) c now =
        (destaquesErro e, cache_set c₁ ("destaques:" ++ p) (destaquesErro e) now) ∧
      obter_destaques_emendas p fetch'
          (cache_set c₁ ("destaques:" ++ p) (destaquesErro e) now) now' =
        (destaquesErro e, cache_set c₁ ("destaques:" ++ p) (destaquesErro e) now)) ∧
    (∀ (p e : String) (c c₁ : Cache String PareceresRes) (now now' : Int)
        (fetch' : Except String (List (List String × List (List String)))),
      cache_get c ("pareceres:" ++ p) now = (Option.none, c₁) →
      now' - now ≤ TTL_SECONDS →
      obter_pareceres_substitutivos_votos p (.error e) c now =
        (pareceresErro e, cache_set c₁ ("pareceres:" ++ p) (pareceresErro e) now) ∧
      obter_pareceres_substitutivos_votos p fetch'
          (cache_set c₁ ("pareceres:" ++ p) (pareceresErro e) now) now' =
        (pareceresErro e, cache_set c₁ ("pareceres:" ++ p) (pareceresErro e) now)) ∧
    (∀ (p e : String) (fmtDate : String → String)
        (c c₁ : Cache String ProcsRes) (now now' : Int)
        (fetch' : Except String (List (List (List String)))),
      cache_get c ("proced:" ++ p) now = (Option.none, c₁) →
      now' - now ≤ TTL_SECONDS →
      obter_procedimentos_regimentais p fmtDate (.error e) c now =
        (procsErro e, cache_set c₁ ("proced:" ++ p) (procsErro e) now) ∧
      obter_procedimentos_regimentais p fmtDate fetch'
          (cache_set c₁ ("proced:" ++ p) (procsErro e) now) now' =
        (procsErro e, cache_set c₁ ("proced:" ++ p) (procsErro e) now)) ∧
    (∀ (ev e : String) (det aut : Val → Val)
        (c c₁ : Cache String PautaRes) (now now' : Int)
        (fetch' : Except String (List Val)),
      cache_get c ("pauta:" ++ ev) now = (Option.none, c₁) →
      now' - now ≤ TTL_SECONDS →
      obter_pauta_por_evento ev det aut (.error e) c now =
        (pautaErro e, cache_set c₁ ("pauta:" ++ ev) (pautaErro e) now) ∧
      obter_pauta_por_evento ev det aut fetch'
          (cache_set c₁ ("pauta:" ++ ev) (pautaErro e) now) now' =
        (pautaErro e, cache_set c₁ ("pauta:" ++ ev) (pautaErro e) now)) ∧
    (∀ (p e : String) (c c₁ : Cache String DetRes) (now : Int),
      cache_get c ("prop:" ++ p) now = (Option.none, c₁) →
      obter_detalhes_proposicao p (.error e) c now = (detalhesErro e, c₁)) := by
  refine ⟨?_, ?_, ?_, ?_, ?_, ?_, ?_⟩
  · intro d fmtDT e c c₁ now now' fetch' h hle
    constructor
    · simp only [obter_eventos_dia, h]; rfl
    · have hc := cache_get_cache_set c₁ ("eventos:" ++ d) (eventosErro e) now now' hle
      simp only [obter_eventos_dia, hc]
  · intro p e c c₁ now now' fetch' h hle
    constructor
    · simp only [obter_autores_proposicao, h]; rfl
    · have hc := cache_get_cache_set c₁ ("autores:" ++ p) autoresErro now now' hle
      simp only [obter_autores_proposicao, hc]
  · intro p e c c₁ now now' fetch' h hle
    constructor
    · simp only [obter_destaques_emendas, h]; rfl
    · have hc := cache_get_cache_set c₁ ("destaques:" ++ p) (destaquesErro e) now now' hle
      simp only [obter_destaques_emendas, hc]
  · intro p e c c₁ now now' fetch' h hle
    constructor
    · simp only [obter_pareceres_substitutivos_votos, h]; rfl
    · have hc := cache_get_cache_set c₁ ("pareceres:" ++ p) (pareceresErro e) now now' hle
      simp only [obter_pareceres_substitutivos_votos, hc]
  · intro p e fmtDate c c₁ now now' fetch' h hle
    constructor
    · simp only [obter_procedimentos_regimentais, h]; rfl
    · have hc := cache_get_cache_set c₁ ("proced:" ++ p) (procsErro e) now now' hle
      simp only [obter_procedimentos_regimentais, hc]
  · intro ev e det aut c c₁ now now' fetch' h hle
    constructor
    · simp only [obter_pauta_por_evento, h]; rfl
    · have hc := cache_get_cache_set c₁ ("pauta:" ++ ev) (pautaErro e) now now' hle
      simp only [obter_pauta_por_evento, hc]
  · intro p e c c₁ now h
    simp only [obter_detalhes_proposicao, h]; rfl

/-- Witness for C9: each service applied on an empty cache at time 0 with a
failing fetch, plus the detalhes clause. -/
theorem claim_C9_witness :
    obter_eventos_dia "d" (fun v => v) (.error "x") [] 0 =
      (eventosErro "x", cache_set [] ("eventos:" ++ "d") (eventosErro "x") 0) ∧
    obter_autores_proposicao "1" (.error "x") [] 0 =
      (autoresErro, cache_set [] ("autores:" ++ "1") autoresErro 0) ∧
    obter_destaques_emendas "1" (.error "x") [] 0 =
      (destaquesErro "x", cache_set [] ("destaques:" ++ "1") (destaquesErro "x") 0) ∧
    obter_pareceres_substitutivos_votos "1" (.error "x") [] 0 =
      (pareceresErro "x", cache_set [] ("pareceres:" ++ "1") (pareceresErro "x") 0) ∧
    obter_procedimentos_regimentais "1" (fun s => s) (.error "x") [] 0 =
      (procsErro "x", cache_set [] ("proced:" ++ "1") (procsErro "x") 0) ∧
    obter_pauta_por_evento "1" (fun v => v) (fun v => v) (.error "x") [] 0 =
      (pautaErro "x", cache_set [] ("pauta:" ++ "1") (pautaErro "x") 0) ∧
    obter_detalhes_proposicao "1" (.error "x") [] 0 = (detalhesErro "x", []) :=
  ⟨(claim_C9.1 "d" (fun v => v) "x" [] [] 0 1 (.error "y") rfl (by decide)).1,
   (claim_C9.2.1 "1" "x" [] [] 0 1 (.error "y") rfl (by decide)).1,
   (claim_C9.2.2.1 "1" "x" [] [] 0 1 (.error "y") rfl (by decide)).1,
   (claim_C9.2.2.2.1 "1" "x" [] [] 0 1 (.error "y") rfl (by decide)).1,
   (claim_C9.2.2.2.2.1 "1" "x" (fun s => s) [] [] 0 1 (.error "y") rfl (by decide)).1,
   (claim_C9.2.2.2.2.2.1 "1" "x" (fun v => v) (fun v => v) [] [] 0 1 (.error "y") rfl (by decide)).1,
   claim_C9.2.2.2.2.2.2 "1" "x" [] [] 0 rfl⟩

/-! ### Claim C7: the opinions keep/discard pattern -/

lemma isDigit_isWordChar {c : Char} (h : c.isDigit = true) : isWordChar c = true := by
  simp [isWordChar, Char.isAlphanum, h]

lemma isDigit_not_isWhitespace {c : Char} (h : c.isDigit = true) :
    c.isWhitespace = false := by
  rcases Bool.eq_false_or_eq_true c.isWhitespace with hw | hw
  · exfalso
    have hc : c = ' ' ∨ c = '\t' ∨ c = '\r' ∨ c = '\n' := by
      simpa [Char.isWhitespace, or_assoc] using hw
    rcases hc with h1 | h1 | h1 | h1 <;> subst h1 <;> exact absurd h (by decide)
  · exact hw

lemma not_isWordChar_not_isDigit {c : Char} (h : isWordChar c = false) :
    c.isDigit = false := by
  rcases Bool.eq_false_or_eq_true c.isDigit with hd | hd
  · rw [isDigit_isWordChar hd] at h
    cases h
  · exact hd

lemma dropWhile_append_of_all {p : Char → Bool} {a : List Char} (b : List Char)
    (h : ∀ c ∈ a, p c = true) : (a ++ b).dropWhile p = b.dropWhile p := by
  induction a with
  | nil => rfl
  | cons c cs ih =>
      simp only [List.cons_append, List.dropWhile_cons,
        h c (List.mem_cons_self _ _), if_pos]
      exact ih (fun d hd => h d (List.mem_cons_of_mem _ hd))

lemma takeWhile_append_of_all {p : Char → Bool} {a : List Char} (b : List Char)
    (h : ∀ c ∈ a, p c = true) : (a ++ b).takeWhile p = a ++ b.takeWhile p := by
  induction a with
  | nil => rfl
  | cons c cs ih =>
      simp only [List.cons_append, List.takeWhile_cons,
        h c (List.mem_cons_self _ _), if_pos]
      rw [ih (fun d hd => h d (List.mem_cons_of_mem _ hd))]

lemma dropWhile_head_neg {p : Char → Bool} {l : List Char}
    (h : ∀ c, l.head? = some c → p c = false) : l.dropWhile p = l := by
  cases l with
  | nil => rfl
  | cons c cs => simp [List.dropWhile_cons, h c rfl]

lemma takeWhile_head_neg {p : Char → Bool} {l : List Char}
    (h : ∀ c, l.head? = some c → p c = false) : l.takeWhile p = [] := by
  cases l with
  | nil => rfl
  | cons c cs => simp [List.takeWhile_cons, h c rfl]

/-- Forward characterization of `matchPRLAt`: success yields the canonical
decomposition. -/
lemma matchPRLAt_some {l : List Char} {tag : String} {n : Nat}
    (h : matchPRLAt l = some (tag, n)) :
    ∃ (x : Char) (ws ds post : List Char),
      l = 'P' :: 'R' :: 'L' :: x :: (ws ++ ds ++ post) ∧
      (x = 'P' ∨ x = 'E') ∧
      (∀ c ∈ ws, c.isWhitespace = true) ∧
      ds ≠ [] ∧
      (∀ c ∈ ds, c.isDigit = true) ∧
      (∀ c, post.head? = some c → isWordChar c = false) ∧
      tag = String.mk ['P', 'R', 'L', x] ∧ n = natOfDigits ds := by
  simp only [matchPRLAt] at h
  split at h
  case _ x rest =>
    split_ifs at h with hx hcond
    obtain ⟨h1, h2⟩ := Prod.mk.inj (Option.some.inj h)
    refine ⟨x, rest.takeWhile Char.isWhitespace,
      (rest.dropWhile Char.isWhitespace).takeWhile Char.isDigit,
      (rest.dropWhile Char.isWhitespace).dropWhile Char.isDigit,
      ?_, hx, ?_, hcond.1, ?_, ?_, h1.symm, h2.symm⟩
    · have e1 : rest = rest.takeWhile Char.isWhitespace ++
          rest.dropWhile Char.isWhitespace :=
        (List.takeWhile_append_dropWhile Char.isWhitespace rest).symm
      have e2 : rest.dropWhile Char.isWhitespace =
          (rest.dropWhile Char.isWhitespace).takeWhile Char.isDigit ++
          (rest.dropWhile Char.isWhitespace).dropWhile Char.isDigit :=
        (List.takeWhile_append_dropWhile Char.isDigit _).symm
      conv_lhs => rw [e1, e2]
      simp [List.append_assoc]
    · exact fun c hc => List.mem_takeWhile_imp hc
    · exact fun c hc => List.mem_takeWhile_imp hc
    · intro c hc
      have h2' := hcond.2
      cases hafter : (rest.dropWhile Char.isWhitespace).dropWhile Char.isDigit with
      | nil => rw [hafter] at hc; cases hc
      | cons c0 cs =>
          rw [hafter] at hc h2'
          injection hc with hc
          subst hc
          simpa using h2'
  case _ => cases h

/-- Backward characterization of `matchPRLAt`: any decomposition makes the
matcher succeed with the decomposition's tag and number. -/
lemma matchPRLAt_of_decomp (x : Char) (ws ds post : List Char)
    (hx : x = 'P' ∨ x = 'E')
    (hws : ∀ c ∈ ws, c.isWhitespace = true)
    (hds : ds ≠ [])
    (hdig : ∀ c ∈ ds, c.isDigit = true)
    (hpost : ∀ c, post.head? = some c → isWordChar c = false) :
    matchPRLAt ('P' :: 'R' :: 'L' :: x :: (ws ++ ds ++ post)) =
      some (String.mk ['P', 'R', 'L', x], natOfDigits ds) := by
  have hpost' : ∀ c, post.head? = some c → c.isDigit = false :=
    fun c hc => not_isWordChar_not_isDigit (hpost c hc)
  have hdrop1 : (ws ++ ds ++ post).dropWhile Char.isWhitespace = ds ++ post := by
    rw [List.append_assoc, dropWhile_append_of_all _ hws]
    cases ds with
    | nil => exact absurd rfl hds
    | cons d ds' =>
        have hd : Char.isWhitespace d = false :=
          isDigit_not_isWhitespace (hdig d (List.mem_cons_self _ _))
        simp [List.dropWhile_cons, hd]
  have htake : (ds ++ post).takeWhile Char.isDigit = ds := by
    rw [takeWhile_append_of_all _ hdig, takeWhile_head_neg hpost', List.append_nil]
  have hdrop2 : (ds ++ post).dropWhile Char.isDigit = post := by
    rw [dropWhile_append_of_all _ hdig, dropWhile_head_neg hpost']
  simp only [matchPRLAt, hdrop1, htake, hdrop2]
  rw [if_pos hx, if_pos]
  refine ⟨hds, ?_⟩
  cases post with
  | nil => rfl
  | cons c cs => simp [hpost c rfl]

lemma getLast?_isSome_cons (a : Char) : ∀ (l : List Char), ∃ c, (a :: l).getLast? = some c := by
  intro l
  induction l generalizing a with
  | nil => exact ⟨a, rfl⟩
  | cons b bs ih => rw [List.getLast?_cons_cons]; exact ih b

/-- One scan step, as an equation. -/
lemma searchPRL_cons (prev : Option Char) (c : Char) (cs : List Char) :
    searchPRL prev (c :: cs) =
      if boundaryOk prev = true then
        match matchPRLAt (c :: cs) with
        | some r => some r
        | Option.none => searchPRL (some c) cs
      else searchPRL (some c) cs := rfl

/-- Scanning succeeds on any string that decomposes as a boundary-guarded
`PRL[PE]\s*\d+\b` occurrence. -/
lemma searchPRL_bwd :
    ∀ (pre : List Char) (prev : Option Char) (x : Char) (ws ds post : List Char),
      (x = 'P' ∨ x = 'E') →
      (∀ c ∈ ws, c.isWhitespace = true) →
      ds ≠ [] →
      (∀ c ∈ ds, c.isDigit = true) →
      (∀ c, post.head? = some c → isWordChar c = false) →
      (pre.getLast? = Option.none → boundaryOk prev = true) →
      (∀ c, pre.getLast? = some c → isWordChar c = false) →
      (searchPRL prev (pre ++ 'P' :: 'R' :: 'L' :: x :: (ws ++ ds ++ post))).isSome = true := by
  intro pre
  induction pre with
  | nil =>
      intro prev x ws ds post hx hws hds hdig hpost hb _
      have hb' : boundaryOk prev = true := hb rfl
      have hm := matchPRLAt_of_decomp x ws ds post hx hws hds hdig hpost
      rw [List.nil_append, searchPRL_cons, if_pos hb', hm]
      rfl
  | cons c pre' ih =>
      intro prev x ws ds post hx hws hds hdig hpost hbnone hbsome
      rw [List.cons_append]
      have hbnone' : pre'.getLast? = Option.none → boundaryOk (some c) = true := by
        intro hn
        have hpre' : pre' = [] := by
          cases pre' with
          | nil => rfl
          | cons a as =>
              obtain ⟨cc, hcc⟩ := getLast?_isSome_cons a as
              rw [hcc] at hn
              cases hn
        subst hpre'
        have hw := hbsome c rfl
        simp [boundaryOk, hw]
      have hbsome' : ∀ c', pre'.getLast? = some c' → isWordChar c' = false := by
        intro c' hc'
        refine hbsome c' ?_
        cases pre' with
        | nil => cases hc'
        | cons a as => rw [List.getLast?_cons_cons]; exact hc'
      have htail := ih (some c) x ws ds post hx hws hds hdig hpost hbnone' hbsome'
      rw [searchPRL_cons]
      by_cases hb : boundaryOk prev = true
      · rw [if_pos hb]
        cases hm : matchPRLAt (c :: (pre' ++ 'P' :: 'R' :: 'L' :: x :: (ws ++ ds ++ post))) with
        | some r => rfl
        | none => exact htail
      · rw [if_neg hb]
        exact htail

/-- Scanning succeeds only on strings carrying a boundary-guarded
`PRL[PE]\s*\d+\b` occurrence, whose tag is the matched group. -/
lemma searchPRL_fwd :
    ∀ (l : List Char) (prev : Option Char) (r : String × Nat),
      searchPRL prev l = some r →
      ∃ (pre ws ds post : List Char) (x : Char),
        l = pre ++ 'P' :: 'R' :: 'L' :: x :: (ws ++ ds ++ post) ∧
        (x = 'P' ∨ x = 'E') ∧
        (∀ c ∈ ws, c.isWhitespace = true) ∧
        ds ≠ [] ∧
        (∀ c ∈ ds, c.isDigit = true) ∧
        (∀ c, post.head? = some c → isWordChar c = false) ∧
        (pre.getLast? = Option.none → boundaryOk prev = true) ∧
        (∀ c, pre.getLast? = some c → isWordChar c = false) ∧
        r.1 = String.mk ['P', 'R', 'L', x] := by
  intro l
  induction l with
  | nil => intro prev r h; cases h
  | cons c cs ih =>
      intro prev r h
      rw [searchPRL_cons] at h
      have tail_case : searchPRL (some c) cs = some r →
          ∃ (pre ws ds post : List Char) (x : Char),
            c :: cs = pre ++ 'P' :: 'R' :: 'L' :: x :: (ws ++ ds ++ post) ∧
            (x = 'P' ∨ x = 'E') ∧
            (∀ c' ∈ ws, c'.isWhitespace = true) ∧
            ds ≠ [] ∧
            (∀ c' ∈ ds, c'.isDigit = true) ∧
            (∀ c', post.head? = some c' → isWordChar c' = false) ∧
            (pre.getLast? = Option.none → boundaryOk prev = true) ∧
            (∀ c', pre.getLast? = some c' → isWordChar c' = false) ∧
            r.1 = String.mk ['P', 'R', 'L', x] := by
        intro h'
        obtain ⟨pre', ws, ds, post, x, hl, hx, hws, hds, hdig, hpost, hbn, hbs, htag⟩ :=
          ih (some c) r h'
        refine ⟨c :: pre', ws, ds, post, x, by rw [List.cons_append, ← hl], hx, hws,
          hds, hdig, hpost, ?_, ?_, htag⟩
        · intro hn
          obtain ⟨cc, hcc⟩ := getLast?_isSome_cons c pre'
          rw [hcc] at hn
          cases hn
        · intro c' hc'
          cases pre' with
          | nil =>
              have hcc : c' = c := by
                have hrfl : ([c] : List Char).getLast? = some c := rfl
                rw [hrfl] at hc'
                exact (Option.some.inj hc').symm
              subst hcc
              have hbc := hbn rfl
              simpa [boundaryOk] using hbc
          | cons a as =>
              rw [List.getLast?_cons_cons] at hc'
              exact hbs c' hc'
      by_cases hb : boundaryOk prev = true
      · rw [if_pos hb] at h
        cases hm : matchPRLAt (c :: cs) with
        | some r0 =>
            obtain ⟨tag0, n0⟩ := r0
            rw [hm] at h
            have h2 : some (tag0, n0) = some r := h
            have hr : r = (tag0, n0) := (Option.some.inj h2).symm
            obtain ⟨x, ws, ds, post, hl, hx, hws, hds, hdig, hpost, htag, _⟩ :=
              matchPRLAt_some hm
            refine ⟨[], ws, ds, post, x, by rw [List.nil_append, ← hl], hx, hws,
              hds, hdig, hpost, fun _ => hb, ?_, ?_⟩
            · intro c' hc'
              exact Option.noConfusion hc'
            · rw [hr]
              exact htag
        | none =>
            rw [hm] at h
            exact tail_case h
      · rw [if_neg hb] at h
        exact tail_case h

/-- The scan and the declarative pattern agree. -/
lemma searchPRL_isSome_iff (l : List Char) :
    (searchPRL Option.none l).isSome = true ↔ ExistsPRLMatch l := by
  constructor
  · intro h
    cases hm : searchPRL Option.none l with
    | none => rw [hm] at h; cases h
    | some r =>
        obtain ⟨pre, ws, ds, post, x, hl, hx, hws, hds, hdig, hpost, _, hbs, _⟩ :=
          searchPRL_fwd l Option.none r hm
        exact ⟨pre, ws, ds, post, x, hl, hx, hws, hds, hdig, hbs, hpost⟩
  · rintro ⟨pre, ws, ds, post, x, hl, hx, hws, hds, hdig, hbs, hpost⟩
    subst hl
    exact searchPRL_bwd pre Option.none x ws ds post hx hws hds hdig hpost
      (fun _ => rfl) hbs

/-- The matched group is always one of the two recognized tags, so the
redundant `tipo_tag not in ("PRLP","PRLE")` guard never fires. -/
lemma searchPRL_tag {prev : Option Char} {l : List Char} {tag : String} {n : Nat}
    (h : searchPRL prev l = some (tag, n)) : tag = "PRLP" ∨ tag = "PRLE" := by
  obtain ⟨pre, ws, ds, post, x, _, hx, _, _, _, _, _, _, htag⟩ :=
    searchPRL_fwd l prev (tag, n) h
  rcases hx with rfl | rfl
  · exact Or.inl htag
  · exact Or.inr htag

/-- With the row long enough, the keep/discard decision of one opinions row
is exactly the success of the pattern scan on the designated column. -/
lemma processarLinha_isSome (id_proposicao : String) (i1 i2 i3 i4 i5 : Int)
    (tds : List String)
    (hlen : ¬ ((tds.length : Int) < max i5 (max i4 (max i3 (max i2 i1))) + 1)) :
    (processarLinha id_proposicao (i1, i2, i3, i4, i5) tds).isSome =
      (searchPRL Option.none (pyStrip (tds.getD i1.toNat "")).toList).isSome := by
  simp only [processarLinha]
  rw [if_neg hlen]
  cases hm : searchPRL Option.none (pyStrip (tds.getD i1.toNat "")).toList with
  | none => rfl
  | some r =>
      obtain ⟨tag, n⟩ := r
      have htag := searchPRL_tag hm
      rcases htag with rfl | rfl <;> simp

/-- C7 (amended): a table row processed by the opinions extractor is kept
as a candidate if and only if its designated column's text contains a
word-boundary-delimited occurrence of one of the two recognized category
codes `PRLP`/`PRLE` followed by *optional whitespace* and then digits
(the source pattern `\b(PRL[PE])\s*(\d+)\b`, which — unlike the claim's
"immediately followed by digits" — tolerates whitespace between the
category letters and the number); rows not matching are discarded
regardless of any status column. -/
theorem claim_C7 :
    (∀ (id_proposicao : String) (idxs : Int × Int × Int × Int × Int)
        (tds : List String),
      ¬ ((tds.length : Int) <
          max idxs.2.2.2.2 (max idxs.2.2.2.1 (max idxs.2.2.1 (max idxs.2.1 idxs.1))) + 1) →
      ((processarLinha id_proposicao idxs tds).isSome = true ↔
        ExistsPRLMatch (pyStrip (tds.getD idxs.1.toNat "")).toList)) ∧
    (∀ l : List Char, (searchPRL Option.none l).isSome = true ↔ ExistsPRLMatch l) := by
  constructor
  · intro id_proposicao idxs tds hlen
    obtain ⟨i1, i2, i3, i4, i5⟩ := idxs
    rw [processarLinha_isSome id_proposicao i1 i2 i3 i4 i5 tds hlen]
    exact searchPRL_isSome_iff _
  · exact searchPRL_isSome_iff

/-- C7 (as stated, refuted): a row whose designated column reads `"PRLP 7"`
— category letters, a space, then digits — is kept as a candidate by the
extractor, while the claim's pattern (category letters *immediately*
followed by digits) rejects that text. -/
theorem claim_C7_counterexample :
    (processarLinha "1" (0, 1, 2, 3, 4) ["PRLP 7", "t", "d", "a", "s"]).isSome = true ∧
    hasImmediateTag (pyStrip "PRLP 7").toList = false := by
  constructor <;> decide

/-- Witness for C7 at a concrete row. -/
theorem claim_C7_witness :
    (processarLinha "1" (0, 1, 2, 3, 4) ["PRLP 12", "t", "d", "a", "s"]).isSome = true ↔
      ExistsPRLMatch (pyStrip (["PRLP 12", "t", "d", "a", "s"].getD
        (((0 : Int), (1 : Int), (2 : Int), (3 : Int), (4 : Int)).1).toNat "")).toList :=
  claim_C7.1 "1" (0, 1, 2, 3, 4) ["PRLP 12", "t", "d", "a", "s"] (by decide)

end Pauta
